import Mathlib

/-!
Verification development for the moc3-rs runtime core (a Live2D-style
puppet animator).  The Rust sources are embedded shallowly: `f32`
values become real numbers, `usize`/`u32` indices become naturals,
vectors become lists, and in-place mutation becomes explicit state
passing on a `FrameData` record.  Panicking paths that the claims
exercise (the aliasing assertions of the deformer tree walk, the glue
assertion, the axis-count assertion of the puppet builder) are
modelled with `Option`; fallible index reads are modelled with `getD`
totalisation, which agrees with the Rust code on every in-bounds
access.  Definitions are translated from:
  moc3-rs/src/puppet/mod.rs, moc3-rs/src/puppet/applicator.rs,
  moc3-rs/src/puppet/draw_order.rs, moc3-rs/src/puppet/node.rs,
  moc3-rs/src/deformer/{warp_deformer,rotation_deformer,glue}.rs,
  moc3-rs/src/data.rs, moc3-rs/src/lib.rs, src/interpolate.rs,
  moc3-impressionism/src/pendulum.rs.
-/

open Real

noncomputable section

namespace Moc3

/-- Planar vector of reals, embedding `glam::Vec2` (f32 components idealised
as reals). -/
structure Vec2 where
  x : ℝ
  y : ℝ
  deriving DecidableEq

instance : Inhabited Vec2 := ⟨⟨0, 0⟩⟩

instance : Add Vec2 := ⟨fun a b => ⟨a.x + b.x, a.y + b.y⟩⟩

instance : Sub Vec2 := ⟨fun a b => ⟨a.x - b.x, a.y - b.y⟩⟩

instance : Neg Vec2 := ⟨fun a => ⟨-a.x, -a.y⟩⟩

/-- Scalar multiplication `v * r` (glam `Vec2 * f32`, and
`Vec2::splat(r) * v`). -/
def Vec2.mulR (v : Vec2) (r : ℝ) : Vec2 := ⟨v.x * r, v.y * r⟩

/-- Scalar division `v / r`. -/
def Vec2.divR (v : Vec2) (r : ℝ) : Vec2 := ⟨v.x / r, v.y / r⟩

/-- The zero vector (`Vec2::ZERO`). -/
def Vec2.zero : Vec2 := ⟨0, 0⟩

/-- Spatial vector of reals, embedding `glam::Vec3`. -/
structure Vec3 where
  x : ℝ
  y : ℝ
  z : ℝ

instance : Inhabited Vec3 := ⟨⟨0, 0, 0⟩⟩

/-- The `f32::to_radians`: `self * (PI / 180)`. -/
def toRadians (x : ℝ) : ℝ := x * (Real.pi / 180)

/-- Truncation toward zero, the rounding used by Rust float-to-integer
casts and by `f32::trunc`. -/
def rustTrunc (q : ℝ) : ℝ := if 0 ≤ q then (⌊q⌋ : ℝ) else (⌈q⌉ : ℝ)

/-- The `f32::fract`: `self - self.trunc()`. -/
def rustFract (q : ℝ) : ℝ := q - rustTrunc q

/-- Rust `as usize` cast of a float: truncate toward zero, saturating
at zero for negative inputs. -/
def usizeOfReal (q : ℝ) : ℕ := if q ≤ 0 then 0 else (⌊q⌋).toNat

/-- The `f32::round`: round half away from zero. -/
def rustRound (x : ℝ) : ℝ :=
  if 0 ≤ x then (⌊x + 1 / 2⌋ : ℝ) else (⌈x - 1 / 2⌉ : ℝ)

/-! ## src/interpolate.rs

The shared interpolation routines (`lerp`, `linear_interp`,
`bilinear_interp`, `trilinear_interp`) used by the parameter
applicator.  A keyframe table slot is a flat list of `f32` lanes. -/

namespace Interp

/-- The `lerp` from src/interpolate.rs: maps `t` from the interval
`input.x..input.y` to `output.x..output.y`. -/
def lerp (t : ℝ) (input output : Vec2) : ℝ :=
  (t - input.x) * (output.y - output.x) / (input.y - input.x) + output.x

/-- The `linear_interp`: per-lane `lerp` between two keyframe slots. -/
def linearInterp (t : ℝ) (left right : ℝ × List ℝ) : List ℝ :=
  List.zipWith (fun leftVal rightVal =>
    lerp t ⟨left.1, right.1⟩ ⟨leftVal, rightVal⟩) left.2 right.2

/-- The `bilinear_interp`: linear interpolation along x of the two rows,
then along y. -/
def bilinearInterp (t : Vec2) (bottomLeft bottomRight topLeft topRight : Vec2 × List ℝ) :
    List ℝ :=
  let bottomInterpolated :=
    linearInterp t.x (bottomLeft.1.x, bottomLeft.2) (bottomRight.1.x, bottomRight.2)
  let topInterpolated :=
    linearInterp t.x (topLeft.1.x, topLeft.2) (topRight.1.x, topRight.2)
  linearInterp t.y (bottomLeft.1.y, bottomInterpolated) (topLeft.1.y, topInterpolated)

/-- The `trilinear_interp`: bilinear interpolation on the two z-layers,
then linear along z. -/
def trilinearInterp (t : Vec3)
    (bfl bfr bbl bbr tfl tfr tbl tbr : Vec3 × List ℝ) : List ℝ :=
  let bottomInterpolated :=
    bilinearInterp ⟨t.x, t.y⟩ (⟨bfl.1.x, bfl.1.y⟩, bfl.2) (⟨bfr.1.x, bfr.1.y⟩, bfr.2)
      (⟨bbl.1.x, bbl.1.y⟩, bbl.2) (⟨bbr.1.x, bbr.1.y⟩, bbr.2)
  let topInterpolated :=
    bilinearInterp ⟨t.x, t.y⟩ (⟨tfl.1.x, tfl.1.y⟩, tfl.2) (⟨tfr.1.x, tfr.1.y⟩, tfr.2)
      (⟨tbl.1.x, tbl.1.y⟩, tbl.2) (⟨tbr.1.x, tbr.1.y⟩, tbr.2)
  linearInterp t.z (bfl.1.z, bottomInterpolated) (tfl.1.z, topInterpolated)

end Interp

/-! ## applicator.rs: bracketing search -/

/-- The binary-search loop of Rust `slice::binary_search_by` with the
`total_cmp` comparator: `Sum.inl i` is `Ok(i)` (found at `i`),
`Sum.inr i` is `Err(i)` (insertion point `i`). -/
def bsearchGo (s : List ℝ) (e : ℝ) (left right : ℕ) : Sum ℕ ℕ :=
  if h : left < right then
    let mid := left + (right - left) / 2
    let v := s.getD mid 0
    if v < e then bsearchGo s e (mid + 1) right
    else if e < v then bsearchGo s e left mid
    else Sum.inl mid
  else Sum.inr left
termination_by right - left
decreasing_by
  · omega
  · omega

/-- Rust `slice::binary_search_by(|x| x.total_cmp(elem))`. -/
def binarySearchBy (s : List ℝ) (e : ℝ) : Sum ℕ ℕ :=
  bsearchGo s e 0 s.length

/-- The `lower_upper_indices` from applicator.rs: the pair of adjacent key
indices bracketing `elem`.  The Rust code panics (usize underflow /
out-of-bounds use) when `elem` lies outside the key range; this total
version uses truncated subtraction and agrees with the Rust code on
every input inside the key range. -/
def lowerUpperIndices (s : List ℝ) (e : ℝ) : ℕ × ℕ :=
  match binarySearchBy s e with
  | Sum.inl index =>
    if index = 0 then (0, 1)
    else if index = s.length - 1 then (s.length - 2, s.length - 1)
    else (index, index + 1)
  | Sum.inr index => (index - 1, index)

/-! ## puppet/mod.rs: colors and frame state -/

/-- The `BlendColor` from puppet/mod.rs. -/
structure BlendColor where
  multiplyColor : Vec3
  screenColor : Vec3

/-- The `BlendColor::default()`: multiply `Vec3::ONE`, screen `Vec3::ZERO`. -/
def BlendColor.default : BlendColor := ⟨⟨1, 1, 1⟩, ⟨0, 0, 0⟩⟩

instance : Inhabited BlendColor := ⟨BlendColor.default⟩

/-- The `BlendColor::blend`: multiply colors multiply, screen colors
combine as `a + b - a*b`, componentwise. -/
def BlendColor.blend (a child : BlendColor) : BlendColor :=
  { multiplyColor := ⟨a.multiplyColor.x * child.multiplyColor.x,
      a.multiplyColor.y * child.multiplyColor.y,
      a.multiplyColor.z * child.multiplyColor.z⟩
    screenColor := ⟨a.screenColor.x + child.screenColor.x - a.screenColor.x * child.screenColor.x,
      a.screenColor.y + child.screenColor.y - a.screenColor.y * child.screenColor.y,
      a.screenColor.z + child.screenColor.z - a.screenColor.z * child.screenColor.z⟩ }

/-- The `TransformData` from deformer/rotation_deformer.rs. -/
structure TransformData where
  origin : Vec2
  scale : ℝ
  angle : ℝ

instance : Inhabited TransformData := ⟨⟨⟨0, 0⟩, 0, 0⟩⟩

/-- The `PuppetFrameData` from puppet/mod.rs: the mutable per-frame state. -/
structure FrameData where
  artMeshRenderOrders : List ℕ
  artMeshDrawOrders : List ℝ
  warpDeformerData : List (List Vec2)
  rotationDeformerData : List TransformData
  artMeshData : List (List Vec2)
  deformerScaleData : List ℝ
  warpDeformerOpacities : List ℝ
  rotationDeformerOpacities : List ℝ
  artMeshOpacities : List ℝ
  warpDeformerColors : List BlendColor
  rotationDeformerColors : List BlendColor
  artMeshColors : List BlendColor
  glueData : List ℝ

/-! ## deformer/rotation_deformer.rs and deformer/glue.rs kernels -/

/-- The `apply_rotation_deformer`: the affine map
`Mat3::from_scale_angle_translation(splat(scale), (base_angle + angle)
.to_radians(), origin)` applied to each point
(`transform_point2(p) = R * S * p + origin`). -/
def applyRotationDeformer (data : TransformData) (baseAngle : ℝ)
    (pointsToTransform : List Vec2) : List Vec2 :=
  let theta := toRadians (baseAngle + data.angle)
  pointsToTransform.map (fun p =>
    ⟨data.scale * p.x * Real.cos theta - data.scale * p.y * Real.sin theta + data.origin.x,
     data.scale * p.x * Real.sin theta + data.scale * p.y * Real.cos theta + data.origin.y⟩)

/-- The `apply_glue`: walk the `(index, weight)` pairs two at a time and
pull each coupled vertex pair together, scaled by the intensity.  Both
updates of one pair use the positions read before either write. -/
def applyGlue (intensity : ℝ) (positions : List ℕ) (weights : List ℝ)
    (artMeshOne artMeshTwo : List Vec2) : List Vec2 × List Vec2 :=
  match positions, weights with
  | i0 :: i1 :: ps, w0 :: w1 :: ws =>
    let a := artMeshOne.getD i0 default
    let b := artMeshTwo.getD i1 default
    let one := artMeshOne.set i0 (a + ((b - a).mulR w0).mulR intensity)
    let two := artMeshTwo.set i1 (b + ((a - b).mulR w1).mulR intensity)
    applyGlue intensity ps ws one two
  | _, _ => (artMeshOne, artMeshTwo)

/-! ## deformer/warp_deformer.rs -/

/-- The `bilinear_interp` of warp_deformer.rs (the `Vec2`-valued one). -/
def warpBilinearInterp (t bottomLeft bottomRight topLeft topRight : Vec2) : Vec2 :=
  let negx := 1 - t.x
  let negy := 1 - t.y
  bottomLeft.mulR (negx * negy) + bottomRight.mulR (t.x * negy) +
    topLeft.mulR (negx * t.y) + topRight.mulR (t.x * t.y)

/-- The `triangular_interp` of warp_deformer.rs: barycentric interpolation
on the two triangles of the cell. -/
def warpTriangularInterp (t bottomLeft bottomRight topLeft topRight : Vec2) : Vec2 :=
  let negx := 1 - t.x
  let negy := 1 - t.y
  if t.x + t.y > 1 then
    topRight + (topLeft - topRight).mulR negx + (bottomRight - topRight).mulR negy
  else
    bottomLeft + (bottomRight - bottomLeft).mulR t.x + (topLeft - bottomLeft).mulR t.y

/-- The `rescale` from warp_deformer.rs: map `t` from `[lower, upper]` to
`[0, 1]`. -/
def rescale (t lower upper : ℝ) : ℝ := (t - lower) / (upper - lower)

/-- The `calc_case_index`: the 3x3 zone index of a point relative to the
unit square. -/
def calcCaseIndex (point : Vec2) : ℕ :=
  let xInd : ℕ := if point.x ≥ 1 then 2 else if point.x ≥ 0 then 1 else 0
  let yInd : ℕ := if point.y ≥ 1 then 2 else if point.y ≥ 0 then 1 else 0
  xInd + yInd * 3

/-- The per-point body of `apply_warp_deformer`.  `grid` holds the
`(rows+1) * (columns+1)` control points.  The interior uses bilinear or
barycentric interpolation, the transition ring interpolates between
grid edge and extrapolation parallelogram, and the extreme region maps
through the parallelogram alone.  The `unreachable!` arm for case 4 is
modelled as the identity (it cannot be reached for a non-interior
point). -/
def warpPoint (grid : List Vec2) (isNewDeformer : Bool) (rows columns : ℕ)
    (point : Vec2) : Vec2 :=
  let columnPoints := columns + 1
  let g : ℕ → Vec2 := fun i => grid.getD i default
  let pointGrid : Vec2 := ⟨point.x * (columns : ℝ), point.y * (rows : ℝ)⟩
  let gridX := usizeOfReal pointGrid.x
  let gridY := usizeOfReal pointGrid.y
  if 0 ≤ point.x ∧ point.x < 1 ∧ 0 ≤ point.y ∧ point.y < 1 then
    let gridIndex := gridX + gridY * columnPoints
    let f : Vec2 := ⟨rustFract pointGrid.x, rustFract pointGrid.y⟩
    if isNewDeformer then
      warpBilinearInterp f (g gridIndex) (g (gridIndex + 1))
        (g (gridIndex + columnPoints)) (g (gridIndex + columnPoints + 1))
    else
      warpTriangularInterp f (g gridIndex) (g (gridIndex + 1))
        (g (gridIndex + columnPoints)) (g (gridIndex + columnPoints + 1))
  else
    let centroid := (g 0 + g columns + g (rows * columnPoints) +
      g (columns + rows * columnPoints)).divR 4
    let diagonalOne := g (columns + rows * columnPoints) - g 0
    let diagonalTwo := g columns - g (rows * columnPoints)
    let vX := (diagonalOne + diagonalTwo).divR 2
    let vY := (diagonalOne - diagonalTwo).divR 2
    let origin := centroid - diagonalOne.mulR 0.5
    if -2 ≤ point.x ∧ point.x ≤ 3 ∧ -2 ≤ point.y ∧ point.y ≤ 3 then
      match calcCaseIndex point with
      | 7 =>
        let adjustedGridX := min gridX (columns - 1)
        let firstF := (adjustedGridX : ℝ) / (columns : ℝ)
        let secondF := ((adjustedGridX + 1 : ℕ) : ℝ) / (columns : ℝ)
        warpTriangularInterp
          ⟨pointGrid.x - (adjustedGridX : ℝ), rescale point.y 1 3⟩
          (g (adjustedGridX + rows * columnPoints))
          (g (adjustedGridX + 1 + rows * columnPoints))
          (origin + vX.mulR firstF + vY.mulR 3)
          (origin + vX.mulR secondF + vY.mulR 3)
      | 1 =>
        let adjustedGridX := min gridX (columns - 1)
        let firstF := (adjustedGridX : ℝ) / (columns : ℝ)
        let secondF := ((adjustedGridX + 1 : ℕ) : ℝ) / (columns : ℝ)
        warpTriangularInterp
          ⟨pointGrid.x - (adjustedGridX : ℝ), rescale point.y (-2) 0⟩
          (origin + vX.mulR firstF + vY.mulR (-2))
          (origin + vX.mulR secondF + vY.mulR (-2))
          (g adjustedGridX)
          (g (adjustedGridX + 1))
      | 3 =>
        let adjustedGridY := min gridY (rows - 1)
        let firstF := (adjustedGridY : ℝ) / (rows : ℝ)
        let secondF := ((adjustedGridY + 1 : ℕ) : ℝ) / (rows : ℝ)
        warpTriangularInterp
          ⟨rescale point.x (-2) 0, pointGrid.y - (adjustedGridY : ℝ)⟩
          (origin + vX.mulR (-2) + vY.mulR firstF)
          (g (adjustedGridY * columnPoints))
          (origin + vX.mulR (-2) + vY.mulR secondF)
          (g ((adjustedGridY + 1) * columnPoints))
      | 5 =>
        let adjustedGridY := min gridY (rows - 1)
        let firstF := (adjustedGridY : ℝ) / (rows : ℝ)
        let secondF := ((adjustedGridY + 1 : ℕ) : ℝ) / (rows : ℝ)
        warpTriangularInterp
          ⟨rescale point.x 1 3, pointGrid.y - (adjustedGridY : ℝ)⟩
          (g (columns + adjustedGridY * columnPoints))
          (origin + vX.mulR 3 + vY.mulR firstF)
          (g (columns + (adjustedGridY + 1) * columnPoints))
          (origin + vX.mulR 3 + vY.mulR secondF)
      | 6 =>
        warpTriangularInterp ⟨rescale point.x (-2) 0, rescale point.y 1 3⟩
          (origin + vX.mulR (-2) + vY.mulR 1)
          (g (rows * columnPoints))
          (origin + vX.mulR (-2) + vY.mulR 3)
          (origin + vX.mulR 0 + vY.mulR 3)
      | 8 =>
        warpTriangularInterp ⟨rescale point.x 1 3, rescale point.y 1 3⟩
          (g (columns + rows * columnPoints))
          (origin + vX.mulR 3 + vY.mulR 1)
          (origin + vX.mulR 1 + vY.mulR 3)
          (origin + vX.mulR 3 + vY.mulR 3)
      | 0 =>
        warpTriangularInterp ⟨rescale point.x (-2) 0, rescale point.y (-2) 0⟩
          (origin + vX.mulR (-2) + vY.mulR (-2))
          (origin + vX.mulR 0 + vY.mulR (-2))
          (origin + vX.mulR (-2) + vY.mulR 0)
          (g 0)
      | 2 =>
        warpTriangularInterp ⟨rescale point.x 1 3, rescale point.y (-2) 0⟩
          (origin + vX.mulR 1 + vY.mulR (-2))
          (origin + vX.mulR 3 + vY.mulR (-2))
          (g columns)
          (origin + vX.mulR 3 + vY.mulR 0)
      | _ => point
    else
      origin + vX.mulR point.x + vY.mulR point.y

/-- The `apply_warp_deformer`: transform every point of the slice in
place. -/
def applyWarpDeformer (grid : List Vec2) (isNewDeformer : Bool) (rows columns : ℕ)
    (pointsToTransform : List Vec2) : List Vec2 :=
  pointsToTransform.map (warpPoint grid isNewDeformer rows columns)

/-! ## puppet/applicator.rs -/

/-- The `BlendShapeConstraints` from applicator.rs. -/
structure BlendShapeConstraints where
  parameterIndex : ℕ
  keys : List ℝ
  weights : List ℝ

/-- The `BlendShapeConstraints::process`: piecewise-linear gate evaluated
at the constraint parameter's current value. -/
def BlendShapeConstraints.process (c : BlendShapeConstraints) (parameters : List ℝ) : ℝ :=
  let param := parameters.getD c.parameterIndex 0
  let lu := lowerUpperIndices c.keys param
  let scaled := rescale param (c.keys.getD lu.1 0) (c.keys.getD lu.2 0)
  (1 - scaled) * c.weights.getD lu.1 0 + scaled * c.weights.getD lu.2 0

/-- The `ApplicatorKind` from applicator.rs: the per-keyframe tables of one
entity.  An `ArtMesh` carries positions, opacities and draw orders, a
`WarpDeformer` grid positions and opacities, a `RotationDeformer`
transforms and opacities, a `Glue` intensities. -/
inductive ApplicatorKind where
  | artMesh : List (List Vec2) → List ℝ → List ℝ → ApplicatorKind
  | warpDeformer : List (List Vec2) → List ℝ → ApplicatorKind
  | rotationDeformer : List TransformData → List ℝ → ApplicatorKind
  | glue : List ℝ → ApplicatorKind

/-- The `ParamApplicator` from applicator.rs: up to three parameter axes
(key list and parameter index each), the target entity index, the
keyframe tables, and the optional blend-shape constraints. -/
structure ParamApplicator where
  x : Option (List ℝ × ℕ)
  y : Option (List ℝ × ℕ)
  z : Option (List ℝ × ℕ)
  kindIndex : ℕ
  values : ApplicatorKind
  blend : Option (List BlendShapeConstraints)

/-- The `bytemuck::cast_slice` on a keyframe slot of 2D points: the flat
f32 lane view. -/
def castSliceV (vs : List Vec2) : List ℝ := vs.flatMap (fun v => [v.x, v.y])

/-- The `bytemuck::cast_vec` back from flat f32 lanes to 2D points. -/
def castVecV : List ℝ → List Vec2
  | x :: y :: rest => ⟨x, y⟩ :: castVecV rest
  | _ => []

/-- The `bytemuck::cast_slice` on a single `TransformData`: its four f32
lanes `[origin.x, origin.y, scale, angle]`. -/
def castSliceT (td : TransformData) : List ℝ := [td.origin.x, td.origin.y, td.scale, td.angle]

/-- The `ParamApplicator::do_interpolate`: multilinear interpolation of the
`Vec2`-slot tables over the applicator's one, two or three axes.  The
slot index for per-axis indices `(x, y, z)` is
`x + y * x_keys.len() + z * y_keys.len()`, exactly as in the source. -/
def ParamApplicator.doInterpolate (a : ParamApplicator) (parameters : List ℝ)
    (choices : List (List Vec2)) : List Vec2 :=
  castVecV (
    match a.z with
    | some zUnwrapped =>
      let xUnwrapped := a.x.getD ([], 0)
      let yUnwrapped := a.y.getD ([], 0)
      let xVal := parameters.getD xUnwrapped.2 0
      let xlu := lowerUpperIndices xUnwrapped.1 xVal
      let yVal := parameters.getD yUnwrapped.2 0
      let ylu := lowerUpperIndices yUnwrapped.1 yVal
      let zVal := parameters.getD zUnwrapped.2 0
      let zlu := lowerUpperIndices zUnwrapped.1 zVal
      let temp : ℕ → ℕ → ℕ → Vec3 × List ℝ := fun x y z =>
        (⟨xUnwrapped.1.getD x 0, yUnwrapped.1.getD y 0, zUnwrapped.1.getD z 0⟩,
         castSliceV (choices.getD (x + y * xUnwrapped.1.length + z * yUnwrapped.1.length) []))
      Interp.trilinearInterp ⟨xVal, yVal, zVal⟩
        (temp xlu.1 ylu.1 zlu.1) (temp xlu.2 ylu.1 zlu.1)
        (temp xlu.1 ylu.2 zlu.1) (temp xlu.2 ylu.2 zlu.1)
        (temp xlu.1 ylu.1 zlu.2) (temp xlu.2 ylu.1 zlu.2)
        (temp xlu.1 ylu.2 zlu.2) (temp xlu.2 ylu.2 zlu.2)
    | none =>
      match a.y with
      | some yUnwrapped =>
        let xUnwrapped := a.x.getD ([], 0)
        let xVal := parameters.getD xUnwrapped.2 0
        let xlu := lowerUpperIndices xUnwrapped.1 xVal
        let yVal := parameters.getD yUnwrapped.2 0
        let ylu := lowerUpperIndices yUnwrapped.1 yVal
        let temp : ℕ → ℕ → Vec2 × List ℝ := fun x y =>
          (⟨xUnwrapped.1.getD x 0, yUnwrapped.1.getD y 0⟩,
           castSliceV (choices.getD (x + y * xUnwrapped.1.length) []))
        Interp.bilinearInterp ⟨xVal, yVal⟩
          (temp xlu.1 ylu.1) (temp xlu.2 ylu.1) (temp xlu.1 ylu.2) (temp xlu.2 ylu.2)
      | none =>
        match a.x with
        | some xUnwrapped =>
          let xVal := parameters.getD xUnwrapped.2 0
          let xlu := lowerUpperIndices xUnwrapped.1 xVal
          let temp : ℕ → ℝ × List ℝ := fun x =>
            (xUnwrapped.1.getD x 0, castSliceV (choices.getD x []))
          Interp.linearInterp xVal (temp xlu.1) (temp xlu.2)
        | none => castSliceV (choices.getD 0 []))

/-- The `ParamApplicator::do_interpolate_single`: the same interpolation on
single-f32 slots. -/
def ParamApplicator.doInterpolateSingle (a : ParamApplicator) (parameters : List ℝ)
    (choices : List ℝ) : ℝ :=
  let data :=
    match a.z with
    | some zUnwrapped =>
      let xUnwrapped := a.x.getD ([], 0)
      let yUnwrapped := a.y.getD ([], 0)
      let xVal := parameters.getD xUnwrapped.2 0
      let xlu := lowerUpperIndices xUnwrapped.1 xVal
      let yVal := parameters.getD yUnwrapped.2 0
      let ylu := lowerUpperIndices yUnwrapped.1 yVal
      let zVal := parameters.getD zUnwrapped.2 0
      let zlu := lowerUpperIndices zUnwrapped.1 zVal
      let temp : ℕ → ℕ → ℕ → Vec3 × List ℝ := fun x y z =>
        (⟨xUnwrapped.1.getD x 0, yUnwrapped.1.getD y 0, zUnwrapped.1.getD z 0⟩,
         [choices.getD (x + y * xUnwrapped.1.length + z * yUnwrapped.1.length) 0])
      Interp.trilinearInterp ⟨xVal, yVal, zVal⟩
        (temp xlu.1 ylu.1 zlu.1) (temp xlu.2 ylu.1 zlu.1)
        (temp xlu.1 ylu.2 zlu.1) (temp xlu.2 ylu.2 zlu.1)
        (temp xlu.1 ylu.1 zlu.2) (temp xlu.2 ylu.1 zlu.2)
        (temp xlu.1 ylu.2 zlu.2) (temp xlu.2 ylu.2 zlu.2)
    | none =>
      match a.y with
      | some yUnwrapped =>
        let xUnwrapped := a.x.getD ([], 0)
        let xVal := parameters.getD xUnwrapped.2 0
        let xlu := lowerUpperIndices xUnwrapped.1 xVal
        let yVal := parameters.getD yUnwrapped.2 0
        let ylu := lowerUpperIndices yUnwrapped.1 yVal
        let temp : ℕ → ℕ → Vec2 × List ℝ := fun x y =>
          (⟨xUnwrapped.1.getD x 0, yUnwrapped.1.getD y 0⟩,
           [choices.getD (x + y * xUnwrapped.1.length) 0])
        Interp.bilinearInterp ⟨xVal, yVal⟩
          (temp xlu.1 ylu.1) (temp xlu.2 ylu.1) (temp xlu.1 ylu.2) (temp xlu.2 ylu.2)
      | none =>
        match a.x with
        | some xUnwrapped =>
          let xVal := parameters.getD xUnwrapped.2 0
          let xlu := lowerUpperIndices xUnwrapped.1 xVal
          let temp : ℕ → ℝ × List ℝ := fun x => (xUnwrapped.1.getD x 0, [choices.getD x 0])
          Interp.linearInterp xVal (temp xlu.1) (temp xlu.2)
        | none => [choices.getD 0 0]
  data.getD 0 0

/-- The `ParamApplicator::apply`: write the interpolated contribution of
this applicator into the frame state.  An art-mesh applicator with
blend constraints adds the gated result onto the vertex positions
only; one without overwrites positions, draw order and opacity.  The
glue arm stores the middle entry of the intensity table, ignoring the
parameters. -/
def ParamApplicator.apply (a : ParamApplicator) (parameters : List ℝ)
    (frameData : FrameData) : FrameData :=
  let ind := a.kindIndex
  match a.values with
  | ApplicatorKind.artMesh choices opacities drawOrders =>
    let data := a.doInterpolate parameters choices
    match a.blend with
    | some constraints =>
      let lowestWeight := constraints.foldl
        (fun lowest constraint => min lowest (constraint.process parameters)) 1
      { frameData with
        artMeshData := frameData.artMeshData.set ind
          (List.zipWith (fun change diff => change + diff.mulR lowestWeight)
            (frameData.artMeshData.getD ind []) data) }
    | none =>
      { frameData with
        artMeshData := frameData.artMeshData.set ind data
        artMeshDrawOrders := frameData.artMeshDrawOrders.set ind
          (a.doInterpolateSingle parameters drawOrders)
        artMeshOpacities := frameData.artMeshOpacities.set ind
          (a.doInterpolateSingle parameters opacities) }
  | ApplicatorKind.warpDeformer choices opacities =>
    let data := a.doInterpolate parameters choices
    { frameData with
      warpDeformerOpacities := frameData.warpDeformerOpacities.set ind
        (a.doInterpolateSingle parameters opacities)
      warpDeformerData := frameData.warpDeformerData.set ind data }
  | ApplicatorKind.rotationDeformer choices opacities =>
    let fd1 := { frameData with
      rotationDeformerOpacities := frameData.rotationDeformerOpacities.set ind
        (a.doInterpolateSingle parameters opacities) }
    let res :=
      match a.z with
      | some zUnwrapped =>
        let xUnwrapped := a.x.getD ([], 0)
        let yUnwrapped := a.y.getD ([], 0)
        let xVal := parameters.getD xUnwrapped.2 0
        let xlu := lowerUpperIndices xUnwrapped.1 xVal
        let yVal := parameters.getD yUnwrapped.2 0
        let ylu := lowerUpperIndices yUnwrapped.1 yVal
        let zVal := parameters.getD zUnwrapped.2 0
        let zlu := lowerUpperIndices zUnwrapped.1 zVal
        let temp : ℕ → ℕ → ℕ → Vec3 × List ℝ := fun x y z =>
          (⟨xUnwrapped.1.getD x 0, yUnwrapped.1.getD y 0, zUnwrapped.1.getD z 0⟩,
           castSliceT (choices.getD (x + y * xUnwrapped.1.length + z * yUnwrapped.1.length)
             default))
        Interp.trilinearInterp ⟨xVal, yVal, zVal⟩
          (temp xlu.1 ylu.1 zlu.1) (temp xlu.2 ylu.1 zlu.1)
          (temp xlu.1 ylu.2 zlu.1) (temp xlu.2 ylu.2 zlu.1)
          (temp xlu.1 ylu.1 zlu.2) (temp xlu.2 ylu.1 zlu.2)
          (temp xlu.1 ylu.2 zlu.2) (temp xlu.2 ylu.2 zlu.2)
      | none =>
        match a.y with
        | some yUnwrapped =>
          let xUnwrapped := a.x.getD ([], 0)
          let xVal := parameters.getD xUnwrapped.2 0
          let xlu := lowerUpperIndices xUnwrapped.1 xVal
          let yVal := parameters.getD yUnwrapped.2 0
          let ylu := lowerUpperIndices yUnwrapped.1 yVal
          let temp : ℕ → ℕ → Vec2 × List ℝ := fun x y =>
            (⟨xUnwrapped.1.getD x 0, yUnwrapped.1.getD y 0⟩,
             castSliceT (choices.getD (x + y * xUnwrapped.1.length) default))
          Interp.bilinearInterp ⟨xVal, yVal⟩
            (temp xlu.1 ylu.1) (temp xlu.2 ylu.1) (temp xlu.1 ylu.2) (temp xlu.2 ylu.2)
        | none =>
          match a.x with
          | some xUnwrapped =>
            let xVal := parameters.getD xUnwrapped.2 0
            let xlu := lowerUpperIndices xUnwrapped.1 xVal
            let temp : ℕ → ℝ × List ℝ := fun x =>
              (xUnwrapped.1.getD x 0, castSliceT (choices.getD x default))
            Interp.linearInterp xVal (temp xlu.1) (temp xlu.2)
          | none => castSliceT (choices.getD 0 default)
    { fd1 with
      rotationDeformerData := fd1.rotationDeformerData.set ind
        { origin := ⟨res.getD 0 0, res.getD 1 0⟩
          scale := res.getD 2 0
          angle := res.getD 3 0 } }
  | ApplicatorKind.glue intensities =>
    { frameData with
      glueData := frameData.glueData.set ind (intensities.getD (intensities.length / 2) 0) }

/-! ## puppet/node.rs -/

/-- The `ArtMeshData` from puppet/node.rs. -/
structure ArtMeshData where
  vertexes : ℕ

/-- The `WarpDeformerData` from puppet/node.rs. -/
structure WarpDeformerData where
  rows : ℕ
  columns : ℕ
  isNewDeformerr : Bool

/-- The `RotationDeformerData` from puppet/node.rs. -/
structure RotationDeformerData where
  baseAngle : ℝ

/-- The `NodeKind` from puppet/node.rs: deformer kind plus the
kind-specific (`specific`) index into the per-kind arrays. -/
inductive NodeKind where
  | artMesh : ArtMeshData → NodeKind
  | warpDeformer : WarpDeformerData → ℕ → NodeKind
  | rotationDeformer : RotationDeformerData → ℕ → NodeKind

/-- The `std::mem::discriminant` on `NodeKind`. -/
def NodeKind.tag : NodeKind → ℕ
  | NodeKind.artMesh _ => 0
  | NodeKind.warpDeformer _ _ => 1
  | NodeKind.rotationDeformer _ _ => 2

/-- The `DeformerNode` from puppet/node.rs. -/
structure DeformerNode where
  data : NodeKind
  broadIndex : ℕ
  parentPartIndex : ℤ
  isEnabled : Bool
  id : String

/-- The `GlueNode` from puppet/node.rs. -/
structure GlueNode where
  id : String
  kindIndex : ℕ
  artMeshIndex : ℕ × ℕ
  weights : List ℝ
  meshIndices : List ℕ

/-- The deformer forest: the `indextree::Arena<DeformerNode>` plus its
parent links, embedded as rose trees (one per root in
`Puppet::node_roots`). -/
inductive DTree where
  | node : DeformerNode → List DTree → DTree

/-! ## puppet/mod.rs: Puppet::update -/

/-- The body of the deformer-walk loop of `Puppet::update` for one
`(parent, child)` edge, part 2: write the transformed child buffer
back and propagate opacity and blend color down.  The rotation-child
color slot is indexed by the node's broad index, exactly as in the
source (the opacity slot uses the specific index). -/
def finishEdge (fd : FrameData) (child : DeformerNode) (newChanges : List Vec2)
    (parentOpacity : ℝ) (parentColor : BlendColor) : FrameData :=
  match child.data with
  | NodeKind.artMesh _ =>
    { fd with
      artMeshData := fd.artMeshData.set child.broadIndex newChanges
      artMeshOpacities := fd.artMeshOpacities.set child.broadIndex
        (fd.artMeshOpacities.getD child.broadIndex 0 * parentOpacity)
      artMeshColors := fd.artMeshColors.set child.broadIndex
        (parentColor.blend (fd.artMeshColors.getD child.broadIndex default)) }
  | NodeKind.warpDeformer _ ind =>
    { fd with
      warpDeformerData := fd.warpDeformerData.set ind newChanges
      warpDeformerOpacities := fd.warpDeformerOpacities.set ind
        (fd.warpDeformerOpacities.getD ind 0 * parentOpacity)
      warpDeformerColors := fd.warpDeformerColors.set ind
        (parentColor.blend (fd.warpDeformerColors.getD ind default)) }
  | NodeKind.rotationDeformer _ ind =>
    { fd with
      rotationDeformerData := fd.rotationDeformerData.set ind
        { fd.rotationDeformerData.getD ind default with origin := newChanges.getD 0 default }
      rotationDeformerOpacities := fd.rotationDeformerOpacities.set ind
        (fd.rotationDeformerOpacities.getD ind 0 * parentOpacity)
      rotationDeformerColors := fd.rotationDeformerColors.set child.broadIndex
        (parentColor.blend (fd.rotationDeformerColors.getD child.broadIndex default)) }

/-- The body of the deformer-walk loop of `Puppet::update` for one
`(parent, child)` edge.  `none` models the aliasing `assert_ne!` (and
the `unreachable!` for an art-mesh parent).  The child's "changes"
buffer is its grid (warp), its transform origin (rotation), or its
vertex positions (art mesh); the scale bookkeeping follows the source:
a warp child inherits the parent's accumulated scale, a rotation child
multiplies its own scale by it. -/
def processEdge (fd : FrameData) (parent child : DeformerNode) : Option FrameData :=
  if (child.data.tag, child.broadIndex) = (parent.data.tag, parent.broadIndex) then none
  else
    let step1 : FrameData × List Vec2 :=
      match child.data with
      | NodeKind.artMesh _ => (fd, fd.artMeshData.getD child.broadIndex [])
      | NodeKind.warpDeformer _ ind =>
        let inherited := fd.deformerScaleData.getD parent.broadIndex 0
        let fd1 := { fd with
          deformerScaleData := fd.deformerScaleData.set child.broadIndex inherited }
        (fd1, fd1.warpDeformerData.getD ind [])
      | NodeKind.rotationDeformer _ ind =>
        let td := fd.rotationDeformerData.getD ind default
        let newScale := td.scale * fd.deformerScaleData.getD parent.broadIndex 0
        let fd1 := { fd with
          rotationDeformerData := fd.rotationDeformerData.set ind { td with scale := newScale }
          deformerScaleData := fd.deformerScaleData.set child.broadIndex newScale }
        (fd1, [td.origin])
    let fd1 := step1.1
    let childChanges := step1.2
    match parent.data with
    | NodeKind.artMesh _ => none
    | NodeKind.warpDeformer pdata pind =>
      let grid := fd1.warpDeformerData.getD pind []
      let newChanges := applyWarpDeformer grid pdata.isNewDeformerr pdata.rows pdata.columns
        childChanges
      some (finishEdge fd1 child newChanges (fd1.warpDeformerOpacities.getD pind 0)
        (fd1.warpDeformerColors.getD pind default))
    | NodeKind.rotationDeformer pdata pind =>
      let transform := fd1.rotationDeformerData.getD pind default
      let newChanges := applyRotationDeformer transform pdata.baseAngle childChanges
      some (finishEdge fd1 child newChanges (fd1.rotationDeformerOpacities.getD pind 0)
        (fd1.rotationDeformerColors.getD pind default))

mutual

/-- Depth-first pre-order walk below one node: process the edge from
`parentNode` to this node, then descend. -/
def walkTree (fd : FrameData) (parentNode : DeformerNode) : DTree → Option FrameData
  | DTree.node value children =>
    (processEdge fd parentNode value).bind (fun fd1 => walkList fd1 value children)

/-- Walk a list of sibling subtrees in order, threading the frame
state. -/
def walkList (fd : FrameData) (parentNode : DeformerNode) : List DTree → Option FrameData
  | [] => some fd
  | t :: ts => (walkTree fd parentNode t).bind (fun fd1 => walkList fd1 parentNode ts)

end

/-- The outer loop of the tree walk: `for root in &self.node_roots`
iterate the root's descendants, skipping the root itself (the root is
only ever a parent). -/
def walkRoots (fd : FrameData) : List DTree → Option FrameData
  | [] => some fd
  | DTree.node value children :: rest =>
    (walkList fd value children).bind (fun fd1 => walkRoots fd1 rest)

/-- The glue loop of `Puppet::update`: `none` models the
`assert_ne!` on the two art-mesh indices. -/
def gluePass (fd : FrameData) : List GlueNode → Option FrameData
  | [] => some fd
  | glue :: rest =>
    if glue.artMeshIndex.1 = glue.artMeshIndex.2 then none
    else
      let one := fd.artMeshData.getD glue.artMeshIndex.1 []
      let two := fd.artMeshData.getD glue.artMeshIndex.2 []
      let res := applyGlue (fd.glueData.getD glue.kindIndex 0) glue.meshIndices glue.weights
        one two
      gluePass { fd with artMeshData :=
        (fd.artMeshData.set glue.artMeshIndex.1 res.1).set glue.artMeshIndex.2 res.2 } rest

/-! ## puppet/draw_order.rs -/

/-- The `DrawOrderNode` payload: an art mesh or a part. -/
inductive DOKind where
  | artMesh : ℕ → DOKind
  | part : ℕ → DOKind

/-- The draw-order arena (`Arena<DrawOrderNode>`) embedded as rose
trees.  Each node carries its arena `NodeId` (used as the sort
tie-break) and its payload. -/
inductive DOTree where
  | node : ℕ → DOKind → List DOTree → DOTree

mutual

/-- Number of nodes of a draw-order tree (termination measure). -/
def DOTree.size : DOTree → ℕ
  | DOTree.node _ _ children => 1 + DOTree.sizeList children

/-- Total number of nodes of a list of draw-order trees. -/
def DOTree.sizeList : List DOTree → ℕ
  | [] => 0
  | t :: ts => DOTree.size t + DOTree.sizeList ts

end

/-- The sort key pushed for one child in `draw_order_tree_rec`: the
rounded draw-order value for an art mesh, the constant `500.0` for a
part. -/
def keyOf (fd : FrameData) : DOTree → ℝ
  | DOTree.node _ (DOKind.artMesh index) _ => rustRound (fd.artMeshDrawOrders.getD index 0)
  | DOTree.node _ (DOKind.part _) _ => 500

/-- The arena id of a draw-order node. -/
def DOTree.nodeId : DOTree → ℕ
  | DOTree.node id _ _ => id

/-- The comparator of `draw_order_tree_rec`: ascending by
`(key.total_cmp, node id)`.  Sibling node ids are distinct in any
arena, so sorting with this (total, antisymmetric) relation produces
the same list as the Rust `sort_unstable_by`. -/
def childLe (fd : FrameData) (a b : DOTree) : Bool :=
  decide (keyOf fd a < keyOf fd b ∨ (keyOf fd a = keyOf fd b ∧ a.nodeId ≤ b.nodeId))

mutual

/-- The `draw_order_tree_rec`: sort the children of this node by
`(rounded draw order, node id)`, then emit art-mesh indices into
`art_mesh_render_orders` left to right (bumping the cursor) and recurse
into part children. -/
def drawOrderRec (fd : FrameData) (curIndex : ℕ) : DOTree → FrameData × ℕ
  | DOTree.node _ _ children =>
    drawOrderGo fd curIndex (List.mergeSort children (childLe fd))
termination_by t => 2 * DOTree.size t
decreasing_by
  have hsum : ∀ l : List DOTree, DOTree.sizeList l = (l.map DOTree.size).sum := by
    intro l
    induction l with
    | nil => simp [DOTree.sizeList]
    | cons a as ih => simp [DOTree.sizeList, ih]
  have hperm := (List.mergeSort_perm children (childLe fd)).map DOTree.size
  have heq := hperm.sum_eq
  simp only [DOTree.size]
  rw [hsum, heq, ← hsum]
  omega

/-- Process an already-sorted child list of `draw_order_tree_rec` in
order. -/
def drawOrderGo (fd : FrameData) (curIndex : ℕ) : List DOTree → FrameData × ℕ
  | [] => (fd, curIndex)
  | DOTree.node _ (DOKind.artMesh index) _ :: cs =>
    drawOrderGo
      { fd with artMeshRenderOrders := fd.artMeshRenderOrders.set curIndex index }
      (curIndex + 1) cs
  | DOTree.node id (DOKind.part partIndex) grandchildren :: cs =>
    let r := drawOrderRec fd curIndex (DOTree.node id (DOKind.part partIndex) grandchildren)
    drawOrderGo r.1 r.2 cs
termination_by l => 2 * DOTree.sizeList l + 1
decreasing_by
  · simp only [DOTree.sizeList, DOTree.size]
    omega
  · simp only [DOTree.sizeList, DOTree.size]
    omega
  · simp only [DOTree.sizeList, DOTree.size]
    omega

end

/-- The `draw_order_tree`: run the recursion from the synthetic root with
cursor 0. -/
def drawOrderTree (fd : FrameData) (root : DOTree) : FrameData :=
  (drawOrderRec fd 0 root).1

/-- The `Puppet` from puppet/mod.rs, restricted to the state that
`Puppet::update` reads: the deformer forest, the glue nodes, the
applicator list, the art-mesh count, and the first draw-order root
(`draw_order_roots[0]`, the only one the update uses).  The render-only
asset fields (UVs, triangle indices, textures, flags, vertex counts,
default parameter values) play no part in `update` and are omitted. -/
structure Puppet where
  nodeRoots : List DTree
  glueNodes : List GlueNode
  applicators : List ParamApplicator
  artMeshCount : ℕ
  drawOrderRoot : DOTree

/-- The `Puppet::update`: run every applicator in order on the raw
parameter values, walk the deformer forest parent-before-child, run
the glue pass, and resolve the draw order.  `none` models the
assertion panics of the walk and the glue pass. -/
def Puppet.update (p : Puppet) (parameterValues : List ℝ) (frameData : FrameData) :
    Option FrameData :=
  let fd1 := p.applicators.foldl (fun fd a => a.apply parameterValues fd) frameData
  (walkRoots fd1 p.nodeRoots).bind (fun fd2 =>
    (gluePass fd2 p.glueNodes).map (fun fd3 => drawOrderTree fd3 p.drawOrderRoot))

/-! ## Specification views of the draw-order pass (for the
render-order permutation property). -/

/-- Overwrite `arr` positionally with `vals`, starting at index `i`
(the cumulative effect of the `render_orders[cur] = ...; cur += 1`
writes). -/
def writeSeq (arr : List ℕ) (i : ℕ) : List ℕ → List ℕ
  | [] => arr
  | v :: vs => writeSeq (arr.set i v) (i + 1) vs

mutual

/-- The sequence of art-mesh indices `draw_order_tree_rec` emits below
one node, in emission order. -/
def emitRec (fd : FrameData) : DOTree → List ℕ
  | DOTree.node _ _ children => emitGo fd (List.mergeSort children (childLe fd))
termination_by t => 2 * DOTree.size t
decreasing_by
  have hsum : ∀ l : List DOTree, DOTree.sizeList l = (l.map DOTree.size).sum := by
    intro l
    induction l with
    | nil => simp [DOTree.sizeList]
    | cons a as ih => simp [DOTree.sizeList, ih]
  have hperm := (List.mergeSort_perm children (childLe fd)).map DOTree.size
  have heq := hperm.sum_eq
  simp only [DOTree.size]
  rw [hsum, heq, ← hsum]
  omega

/-- Emission sequence of an already-sorted child list. -/
def emitGo (fd : FrameData) : List DOTree → List ℕ
  | [] => []
  | DOTree.node _ (DOKind.artMesh index) _ :: cs => index :: emitGo fd cs
  | DOTree.node id (DOKind.part partIndex) grandchildren :: cs =>
    emitRec fd (DOTree.node id (DOKind.part partIndex) grandchildren) ++ emitGo fd cs
termination_by l => 2 * DOTree.sizeList l + 1
decreasing_by
  · simp only [DOTree.sizeList, DOTree.size]
    omega
  · simp only [DOTree.sizeList, DOTree.size]
    omega
  · simp only [DOTree.sizeList, DOTree.size]
    omega

end

mutual

/-- The art-mesh indices reachable below one draw-order node in
document order (no sorting): the multiset the emission sequence is a
permutation of. -/
def amRec : DOTree → List ℕ
  | DOTree.node _ _ children => amGo children
termination_by t => 2 * DOTree.size t
decreasing_by
  simp only [DOTree.size]
  omega

/-- Art-mesh indices of a list of subtrees in order. -/
def amGo : List DOTree → List ℕ
  | [] => []
  | DOTree.node _ (DOKind.artMesh index) _ :: cs => index :: amGo cs
  | DOTree.node id (DOKind.part partIndex) grandchildren :: cs =>
    amRec (DOTree.node id (DOKind.part partIndex) grandchildren) ++ amGo cs
termination_by l => 2 * DOTree.sizeList l + 1
decreasing_by
  · simp only [DOTree.sizeList, DOTree.size]
    omega
  · simp only [DOTree.sizeList, DOTree.size]
    omega
  · simp only [DOTree.sizeList, DOTree.size]
    omega

end

/-! ## moc3-impressionism/src/pendulum.rs -/

/-- Euclidean length of a 2D vector (`glam::Vec2::length`). -/
def Vec2.norm (v : Vec2) : ℝ := Real.sqrt (v.x ^ 2 + v.y ^ 2)

/-- The `glam::Vec2::normalize`: the vector scaled to length one. -/
def Vec2.normalize (v : Vec2) : Vec2 := ⟨v.x / v.norm, v.y / v.norm⟩

/-- The `Vec2::from_angle(a).rotate(v)`: rotation of `v` by `a` radians. -/
def Vec2.rotateBy (angle : ℝ) (v : Vec2) : Vec2 :=
  ⟨Real.cos angle * v.x - Real.sin angle * v.y,
   Real.sin angle * v.x + Real.cos angle * v.y⟩

/-- The `PhysicsVertex` from moc3-impressionism/src/data/physics.rs. -/
structure PhysicsVertex where
  position : Vec2
  mobility : ℝ
  delay : ℝ
  acceleration : ℝ
  radius : ℝ

instance : Inhabited PhysicsVertex := ⟨⟨⟨0, 0⟩, 0, 0, 0, 0⟩⟩

/-- The `PendulumPoint` from pendulum.rs. -/
structure PendulumPoint where
  lastPosition : Vec2
  curPosition : Vec2
  curVelocity : Vec2

instance : Inhabited PendulumPoint := ⟨⟨⟨0, 0⟩, ⟨0, 0⟩, ⟨0, 0⟩⟩⟩

/-- The `UpdateData` from pendulum.rs (`rotation` in radians). -/
structure UpdateData where
  translation : Vec2
  rotation : ℝ

/-- The `Pendulum` from pendulum.rs. -/
structure Pendulum where
  lastGlobalRotation : ℝ
  points : List PendulumPoint
  vertexes : List PhysicsVertex

/-- The candidate direction computed for one pendulum bob: the rotated
link direction plus the velocity and gravity contributions
(`rotated_dir + cur_velocity * te + force * te * te` with
`te = dt * delay` and `force = gravity * acceleration`). -/
def pendCandidate (gravity : Vec2) (rotChange dt : ℝ) (prev pt : PendulumPoint)
    (v : PhysicsVertex) : Vec2 :=
  let force := gravity.mulR v.acceleration
  let effectiveTime := dt * v.delay
  let direction := pt.curPosition - prev.curPosition
  let rotatedDir := Vec2.rotateBy rotChange direction
  rotatedDir + pt.curVelocity.mulR effectiveTime +
    (force.mulR effectiveTime).mulR effectiveTime

/-- One iteration of the bob loop of `Pendulum::update_points`: move
the bob to distance `radius` from the (already updated) previous bob
along the normalized candidate direction, then derive its velocity
from the dilated time. -/
def pendStep (gravity : Vec2) (rotChange dt : ℝ) (prev pt : PendulumPoint)
    (v : PhysicsVertex) : PendulumPoint :=
  let lastPosition := pt.curPosition
  let effectiveTime := dt * v.delay
  let normalizedDir := (pendCandidate gravity rotChange dt prev pt v).normalize
  let curPosition := prev.curPosition + normalizedDir.mulR v.radius
  let curVelocity :=
    if effectiveTime = 0 then Vec2.zero
    else ((curPosition - lastPosition).divR effectiveTime).mulR v.mobility
  ⟨lastPosition, curPosition, curVelocity⟩

/-- The `iter_mut().zip(...).skip(1)` loop of
`Pendulum::update_points`, threading the updated previous bob.  The
zip stops at the shorter of the two lists; bobs without a matching
vertex are left untouched. -/
def pendLoop (gravity : Vec2) (rotChange dt : ℝ) :
    PendulumPoint → List PendulumPoint → List PhysicsVertex → List PendulumPoint
  | _, ps, [] => ps
  | _, [], _ => []
  | prev, pt :: ps, v :: vs =>
    let next := pendStep gravity rotChange dt prev pt v
    next :: pendLoop gravity rotChange dt next ps vs

/-- The `Pendulum::update_points`.  The Rust code indexes `points[0]`
unconditionally and would panic on an empty chain; the empty case is
modelled as a no-op (no claim exercises it). -/
def Pendulum.updatePoints (p : Pendulum) (deltaSeconds : ℝ) (updateData : UpdateData) :
    Pendulum :=
  let dt := deltaSeconds * 20
  if dt = 0 then p
  else
    let effectiveRotationChange := (p.lastGlobalRotation - updateData.rotation) / 5
    let gravityVector : Vec2 := ⟨Real.sin updateData.rotation, Real.cos updateData.rotation⟩
    match p.points with
    | [] => p
    | p0 :: rest =>
      let newP0 : PendulumPoint :=
        ⟨p0.curPosition, updateData.translation, p0.curVelocity⟩
      { lastGlobalRotation := updateData.rotation
        points := newP0 ::
          pendLoop gravityVector effectiveRotationChange dt newP0 rest (p.vertexes.drop 1)
        vertexes := p.vertexes }

/-- The candidate direction of bob `i + 1` during
`Pendulum::update_points p dt ud`, expressed from the update's output
(the previous bob is the already-updated one). -/
def updateCandidate (p : Pendulum) (deltaSeconds : ℝ) (ud : UpdateData) (i : ℕ) : Vec2 :=
  pendCandidate ⟨Real.sin ud.rotation, Real.cos ud.rotation⟩
    ((p.lastGlobalRotation - ud.rotation) / 5) (deltaSeconds * 20)
    ((p.updatePoints deltaSeconds ud).points.getD i default)
    (p.points.getD (i + 1) default)
    (p.vertexes.getD (i + 1) default)

/-! ## puppet/mod.rs: the axis-collection fragment of
`puppet_from_moc3` (the parameter-binding axes of one keyform
binding). -/

/-- The `keyform_bindings` parallel arrays of data.rs. -/
structure KeyformBindings where
  parameterBindingIndexSourcesStarts : List ℕ
  parameterBindingIndexSourcesCounts : List ℕ

/-- The `parameter_binding_indices` parallel array of data.rs. -/
structure ParameterBindingIndices where
  bindingSourcesIndices : List ℕ

/-- The `parameter_bindings` parallel arrays of data.rs. -/
structure ParameterBindings where
  keysSourcesStarts : List ℕ
  keysSourcesCounts : List ℕ

/-- One applicator axis: the key list and the parameter index. -/
def Axis : Type := List ℝ × ℕ

/-- The deformer/glue axis-collection code of `puppet_from_moc3`:
resolve up to three parameter-binding axes of one keyform binding.
The `assert!(parameter_bindings_count <= 3)` is modelled by `none`;
the `x`/`y`/`z` slots mirror the three `if parameter_bindings_count >=
k` blocks of the source. -/
def collectAxes (keyformBindings : KeyformBindings)
    (parameterBindingIndices : ParameterBindingIndices)
    (parameterBindings : ParameterBindings) (keys : List ℝ)
    (parameterBindingsToParameter : List ℕ) (bindingIndex : ℕ) :
    Option (Option Axis × Option Axis × Option Axis) :=
  let parameterBindingsCount :=
    keyformBindings.parameterBindingIndexSourcesCounts.getD bindingIndex 0
  let parameterBindingsStart :=
    keyformBindings.parameterBindingIndexSourcesStarts.getD bindingIndex 0
  if parameterBindingsCount ≤ 3 then
    let axis : ℕ → Axis := fun slot =>
      let ind := parameterBindingIndices.bindingSourcesIndices.getD
        (parameterBindingsStart + slot) 0
      let keyStarts := parameterBindings.keysSourcesStarts.getD ind 0
      let keyCounts := parameterBindings.keysSourcesCounts.getD ind 0
      ((keys.drop keyStarts).take keyCounts, parameterBindingsToParameter.getD ind 0)
    some
      (if 1 ≤ parameterBindingsCount then some (axis 0) else none,
       if 2 ≤ parameterBindingsCount then some (axis 1) else none,
       if 3 ≤ parameterBindingsCount then some (axis 2) else none)
  else none

/-! ## data.rs / lib.rs: the MOC3 header -/

/-- The `Version` from data.rs. -/
inductive Version where
  | v3_00
  | v3_03
  | v4_00
  | v4_02
  deriving DecidableEq

/-- The `#[br(repr = u8)]` decoding of `Version`: bytes 1 through 4;
any other byte is a parse failure. -/
def Version.fromByte : ℕ → Option Version
  | 1 => some Version.v3_00
  | 2 => some Version.v3_03
  | 3 => some Version.v4_00
  | 4 => some Version.v4_02
  | _ => none

/-- The `Header` from data.rs: the version byte and the big-endian flag
byte that follow the magic. -/
structure Header where
  version : Version
  bigEndian : ℕ
  deriving DecidableEq

/-- The binrw parse of `Header`: match the magic `b"MOC3"`, decode the
version byte, then read the `big_endian` byte.  No check of the
`big_endian` value is performed; the byte is stored as-is and the rest
of the file is read little-endian regardless. -/
def parseHeader (bytes : List ℕ) : Option Header :=
  match bytes with
  | m :: o :: c :: three :: version :: bigEndian :: _ =>
    if m = 77 ∧ o = 79 ∧ c = 67 ∧ three = 51 then
      (Version.fromByte version).map (fun v => ⟨v, bigEndian⟩)
    else none
  | _ => none

/-! ## Concrete instances exercised by the claim theorems -/

/-- A frame state with every buffer empty. -/
def FrameData.empty : FrameData :=
  ⟨[], [], [], [], [], [], [], [], [], [], [], [], []⟩

/-- A single-axis glue applicator with keys `[0, 1]` and intensity
table `[10, 20]`. -/
def glueApp : ParamApplicator :=
  ⟨some ([0, 1], 0), none, none, 0, ApplicatorKind.glue [10, 20], none⟩

/-- Frame state for the glue applicator test: one glue slot. -/
def glueFd : FrameData :=
  { FrameData.empty with glueData := [0] }

/-- A three-axis applicator, two keys `[0, 1]` on every axis. -/
def threeAxisApp : ParamApplicator :=
  ⟨some ([0, 1], 0), some ([0, 1], 1), some ([0, 1], 2), 0,
    ApplicatorKind.glue [], none⟩

/-- The eight-slot keyframe table `[0, 1, ..., 7]` (slot `k` holds the
value `k`). -/
def eightTable : List ℝ := [0, 1, 2, 3, 4, 5, 6, 7]

/-- A keyform binding whose binding 0 references four parameter-binding
axes. -/
def fourAxisKeyformBindings : KeyformBindings := ⟨[0], [4]⟩

/-- Four parameter-binding indices `0..3`. -/
def fourAxisBindingIndices : ParameterBindingIndices := ⟨[0, 1, 2, 3]⟩

/-- Four parameter bindings, each with two keys starting at key
offset 0. -/
def fourAxisParameterBindings : ParameterBindings := ⟨[0, 0, 0, 0], [2, 2, 2, 2]⟩

/-- A blend-shape art-mesh applicator with no axes, empty tables and
an empty constraint list. -/
def blendW : ParamApplicator :=
  ⟨none, none, none, 0, ApplicatorKind.artMesh [] [] [], some []⟩

/-- The identity 1x1 warp grid `{(0,0), (1,0), (0,1), (1,1)}`. -/
def unitGrid : List Vec2 := [⟨0, 0⟩, ⟨1, 0⟩, ⟨0, 1⟩, ⟨1, 1⟩]

/-- A single-axis art-mesh applicator with keys `[0, 10]`: keyframe 0
has vertex `(0,0)`, opacity 0 and draw order 0; keyframe 1 has vertex
`(10,10)`, opacity 10 and draw order 10. -/
def clampApp : ParamApplicator :=
  ⟨some ([0, 10], 0), none, none, 0,
    ApplicatorKind.artMesh [[⟨0, 0⟩], [⟨10, 10⟩]] [0, 10] [0, 10], none⟩

/-- A puppet with one art mesh driven by `clampApp`, no deformers, no
glue, and an empty draw-order root. -/
def clampPuppet : Puppet :=
  ⟨[], [], [clampApp], 1, DOTree.node 0 (DOKind.part 0) []⟩

/-- Frame state for `clampPuppet`: one art mesh with one vertex. -/
def clampFd : FrameData :=
  { FrameData.empty with
    artMeshData := [[⟨1, 1⟩]]
    artMeshOpacities := [0]
    artMeshDrawOrders := [0]
    artMeshRenderOrders := [0] }

/-- A rotation-deformer root node (deformer broad index 0, specific
index 0, base angle 0). -/
def rotRoot : DeformerNode :=
  ⟨NodeKind.rotationDeformer ⟨0⟩ 0, 0, -1, true, "A"⟩

/-- A rotation-deformer child node (deformer broad index 1, specific
index 1, base angle 0). -/
def rotChild : DeformerNode :=
  ⟨NodeKind.rotationDeformer ⟨0⟩ 1, 1, -1, true, "B"⟩

/-- A puppet whose deformer forest is a rotation deformer with a
rotation-deformer child. -/
def rotPuppet : Puppet :=
  ⟨[DTree.node rotRoot [DTree.node rotChild []]], [], [], 0,
    DOTree.node 0 (DOKind.part 0) []⟩

/-- Frame state for `rotPuppet`: the parent transform rotates by 90
degrees about the canvas origin; the child sits at `(1, 0)` with
angle 0. -/
def rotFd : FrameData :=
  { FrameData.empty with
    rotationDeformerData := [⟨⟨0, 0⟩, 1, 90⟩, ⟨⟨1, 0⟩, 1, 0⟩]
    deformerScaleData := [1, 1]
    rotationDeformerOpacities := [1, 1]
    rotationDeformerColors := [BlendColor.default, BlendColor.default] }

/-- A two-bob pendulum: anchor at the origin, bob 1 at `(3, 4)` with
link radius 3 (delay, mobility and acceleration zero). -/
def pendW : Pendulum :=
  ⟨0, [⟨⟨0, 0⟩, ⟨0, 0⟩, ⟨0, 0⟩⟩, ⟨⟨3, 4⟩, ⟨3, 4⟩, ⟨0, 0⟩⟩],
    [⟨⟨0, 0⟩, 0, 0, 0, 0⟩, ⟨⟨0, 0⟩, 0, 0, 0, 3⟩]⟩

/-- The same pendulum with a negative link radius `-1` on bob 1. -/
def pendX : Pendulum :=
  ⟨0, [⟨⟨0, 0⟩, ⟨0, 0⟩, ⟨0, 0⟩⟩, ⟨⟨3, 4⟩, ⟨3, 4⟩, ⟨0, 0⟩⟩],
    [⟨⟨0, 0⟩, 0, 0, 0, 0⟩, ⟨⟨0, 0⟩, 0, 0, 0, -1⟩]⟩

/-- The pendulum drive used in the tests: translation to the origin,
rotation 0. -/
def pendUd : UpdateData := ⟨⟨0, 0⟩, 0⟩

/-- The empty puppet: no meshes, no deformers, no glues, a bare
draw-order root. -/
def emptyPuppet : Puppet :=
  ⟨[], [], [], 0, DOTree.node 0 (DOKind.part 0) []⟩

/-- The art-mesh indices one child contributes to `amGo`: its own
index for an art-mesh node, its whole subtree for a part node. -/
def amPiece : DOTree → List ℕ
  | DOTree.node _ (DOKind.artMesh index) _ => [index]
  | DOTree.node id (DOKind.part partIndex) grandchildren =>
    amRec (DOTree.node id (DOKind.part partIndex) grandchildren)

end Moc3

/-! # Theorems -/

namespace Moc3

/-- Bracketing a value `p` with `k0 ≤ p ≤ k1` in a two-key list always
yields the index pair `(0, 1)` (found-at-0, found-at-1 and
in-between cases of `lower_upper_indices`). -/
theorem lowerUpperIndices_two_keys (k0 k1 p : ℝ) (h0 : k0 ≤ p) (h1 : p ≤ k1) :
    lowerUpperIndices [k0, k1] p = (0, 1) := by
  unfold lowerUpperIndices binarySearchBy
  rcases lt_or_eq_of_le h1 with hlt1 | heq1
  · rcases lt_or_eq_of_le h0 with hlt0 | heq0
    · rw [bsearchGo]
      norm_num
      rw [if_neg (by linarith), if_pos (by linarith)]
      rw [bsearchGo]
      norm_num
      rw [if_pos (by linarith)]
      rw [bsearchGo]
      norm_num
    · rw [bsearchGo]
      norm_num
      rw [if_neg (by linarith), if_pos (by linarith)]
      rw [bsearchGo]
      norm_num
      rw [if_neg (by linarith), if_neg (by linarith)]
      norm_num
  · rw [bsearchGo]
    norm_num
    rw [if_neg (by linarith), if_neg (by linarith)]
    norm_num

/-- C7: the MOC3 header parser accepts a header whose `big_endian`
byte is set: parsing `"MOC3"`, version byte 1, big-endian byte 1
succeeds and merely stores the flag, instead of failing with
`ParseError` as the specification requires. -/
theorem parseHeader_accepts_big_endian_flag :
    parseHeader [77, 79, 67, 51, 1, 1] = some ⟨Version.v3_00, 1⟩ := by
  decide

/-- C6: the puppet builder caps the axis count at 3.  A keyform
binding with four parameter-binding axes makes the deformer/glue
axis-collection code of `puppet_from_moc3` fail its
`assert!(parameter_bindings_count <= 3)` (modelled as `none`), so no
four-axis applicator is ever constructed. -/
theorem collectAxes_rejects_four_axes :
    collectAxes fourAxisKeyformBindings fourAxisBindingIndices fourAxisParameterBindings
      [0, 1] [0, 0, 0, 0] 0 = none := by
  rfl

/-- C5: in the three-axis interpolation path, the table slot read for
the corner with per-axis indices `(0, 0, 1)` under key lists of
lengths `(2, 2, 2)` is slot `0 + 0 * 2 + 1 * 2 = 2`, not the slot
`0 + 0 * 2 + 1 * (2 * 2) = 4` demanded by the mixed-radix layout
formula: the z-stride is `y_keys.len()` instead of
`x_keys.len() * y_keys.len()`. -/
theorem doInterpolateSingle_three_axis_slot :
    threeAxisApp.doInterpolateSingle [0, 0, 1] eightTable = eightTable.getD 2 0 ∧
      eightTable.getD 2 0 ≠ eightTable.getD (0 + 0 * 2 + 1 * (2 * 2)) 0 := by
  have h0 : lowerUpperIndices [(0 : ℝ), 1] 0 = (0, 1) :=
    lowerUpperIndices_two_keys 0 1 0 le_rfl (by norm_num)
  have h1 : lowerUpperIndices [(0 : ℝ), 1] 1 = (0, 1) :=
    lowerUpperIndices_two_keys 0 1 1 (by norm_num) le_rfl
  constructor
  · simp only [ParamApplicator.doInterpolateSingle, threeAxisApp, Option.getD_some,
      List.getD_cons_zero, List.getD_cons_succ, List.length_cons, List.length_nil, h0, h1,
      Interp.trilinearInterp, Interp.bilinearInterp, Interp.linearInterp, Interp.lerp,
      eightTable]
    norm_num
  · simp only [eightTable, List.getD_cons_zero, List.getD_cons_succ]
    norm_num

/-- C3: the Glue arm of `ParamApplicator::apply` ignores the parameter
entirely and stores the middle intensity-table entry.  For the
single-axis glue applicator with keys `[0, 1]` and intensities
`[10, 20]`, applying at parameter value 0 writes 20 into the glue
slot, not the linear interpolation `(1 - t) * 10 + t * 20 = 10` at
`t = 0` that the claim demands. -/
theorem glueApply_ignores_parameter :
    (glueApp.apply [0] glueFd).glueData = [20] ∧
      (20 : ℝ) ≠ (1 - 0) * 10 + 0 * 20 := by
  constructor
  · simp [ParamApplicator.apply, glueApp, glueFd, FrameData.empty, List.getD]
  · norm_num

/-- On a single axis with two keys `k0 < k1`, the scalar interpolation
path is exactly linear between the two table slots for any parameter
in `[k0, k1]`: the positive half of the applicator-linearity property,
satisfied by every non-Glue applicator kind. -/
theorem doInterpolateSingle_two_keys (a : ParamApplicator) (k0 k1 p v0 v1 : ℝ)
    (hx : a.x = some ([k0, k1], 0)) (hy : a.y = none) (hz : a.z = none)
    (h0 : k0 ≤ p) (h1 : p ≤ k1) (hk : k0 < k1) :
    a.doInterpolateSingle [p] [v0, v1] =
      (1 - (p - k0) / (k1 - k0)) * v0 + (p - k0) / (k1 - k0) * v1 := by
  have hne : k1 - k0 ≠ 0 := sub_ne_zero_of_ne (ne_of_gt hk)
  have hlu := lowerUpperIndices_two_keys k0 k1 p h0 h1
  simp only [ParamApplicator.doInterpolateSingle, hx, hy, hz, Option.getD_some,
    List.getD_cons_zero, List.getD_cons_succ, hlu, Interp.linearInterp, Interp.lerp]
  field_simp
  ring

/-- Unfolding lemma for vector addition. -/
theorem Vec2.add_def (a b : Vec2) : a + b = ⟨a.x + b.x, a.y + b.y⟩ := rfl

/-- Unfolding lemma for vector subtraction. -/
theorem Vec2.sub_def (a b : Vec2) : a - b = ⟨a.x - b.x, a.y - b.y⟩ := rfl

/-- C10: a blend-shape (constraint-gated) art-mesh applicator only
adds onto the vertex positions: the opacity and draw-order slots of
its entity are left exactly unchanged by `apply`, while a
non-blend-shape art-mesh applicator overwrites positions, draw order
and opacity. -/
theorem artMesh_blend_applicator_effect (a : ParamApplicator) (parameters : List ℝ)
    (fd : FrameData) (choices : List (List Vec2)) (opacities drawOrders : List ℝ)
    (hv : a.values = ApplicatorKind.artMesh choices opacities drawOrders) :
    (∀ constraints, a.blend = some constraints →
      (a.apply parameters fd).artMeshOpacities = fd.artMeshOpacities ∧
      (a.apply parameters fd).artMeshDrawOrders = fd.artMeshDrawOrders ∧
      (a.apply parameters fd).artMeshData = fd.artMeshData.set a.kindIndex
        (List.zipWith (fun change diff => change + diff.mulR
            (constraints.foldl (fun lowest c => min lowest (c.process parameters)) 1))
          (fd.artMeshData.getD a.kindIndex []) (a.doInterpolate parameters choices))) ∧
    (a.blend = none →
      (a.apply parameters fd).artMeshData =
        fd.artMeshData.set a.kindIndex (a.doInterpolate parameters choices) ∧
      (a.apply parameters fd).artMeshDrawOrders =
        fd.artMeshDrawOrders.set a.kindIndex (a.doInterpolateSingle parameters drawOrders) ∧
      (a.apply parameters fd).artMeshOpacities =
        fd.artMeshOpacities.set a.kindIndex (a.doInterpolateSingle parameters opacities)) := by
  constructor
  · intro constraints hb
    simp only [ParamApplicator.apply, hv, hb]
    exact ⟨trivial, trivial, trivial⟩
  · intro hb
    simp only [ParamApplicator.apply, hv, hb]
    exact ⟨trivial, trivial, trivial⟩

/-- Witness for C10: the blend-shape applicator `blendW` leaves the
opacity and draw-order buffers of the empty frame state unchanged. -/
theorem artMesh_blend_applicator_effect_witness :
    (blendW.apply [] FrameData.empty).artMeshOpacities = FrameData.empty.artMeshOpacities ∧
      (blendW.apply [] FrameData.empty).artMeshDrawOrders =
        FrameData.empty.artMeshDrawOrders :=
  ⟨((artMesh_blend_applicator_effect blendW [] FrameData.empty [] [] [] rfl).1 [] rfl).1,
   ((artMesh_blend_applicator_effect blendW [] FrameData.empty [] [] [] rfl).1 [] rfl).2.1⟩

/-- C8: when the four outer corners of the grid are the unit square
`{(0,0), (1,0), (0,1), (1,1)}`, the extreme-region branch of
`apply_warp_deformer` (any point with `x < -2`, `x > 3`, `y < -2` or
`y > 3`) is the identity: the extrapolation parallelogram degenerates
to the standard axes. -/
theorem warp_extreme_identity (grid : List Vec2) (isNew : Bool) (rows columns : ℕ)
    (p : Vec2)
    (hreg : p.x < -2 ∨ 3 < p.x ∨ p.y < -2 ∨ 3 < p.y)
    (hA : grid.getD 0 default = ⟨0, 0⟩)
    (hB : grid.getD columns default = ⟨1, 0⟩)
    (hC : grid.getD (rows * (columns + 1)) default = ⟨0, 1⟩)
    (hD : grid.getD (columns + rows * (columns + 1)) default = ⟨1, 1⟩) :
    applyWarpDeformer grid isNew rows columns [p] = [p] := by
  have hni : ¬(0 ≤ p.x ∧ p.x < 1 ∧ 0 ≤ p.y ∧ p.y < 1) := by
    rintro ⟨h1, h2, h3, h4⟩
    rcases hreg with h | h | h | h <;> linarith
  have hnt : ¬(-2 ≤ p.x ∧ p.x ≤ 3 ∧ -2 ≤ p.y ∧ p.y ≤ 3) := by
    rintro ⟨h1, h2, h3, h4⟩
    rcases hreg with h | h | h | h <;> linarith
  simp only [applyWarpDeformer, List.map_cons, List.map_nil, List.cons.injEq, and_true]
  rw [warpPoint]
  simp only [hA, hB, hC, hD, if_neg hni, if_neg hnt]
  obtain ⟨px, py⟩ := p
  simp only [Vec2.add_def, Vec2.sub_def, Vec2.mulR, Vec2.divR, Vec2.mk.injEq]
  constructor <;> norm_num

/-- Witness for C8: on the 1x1 unit grid, the far point `(10, 0)` maps
to itself. -/
theorem warp_extreme_identity_witness :
    applyWarpDeformer unitGrid false 1 1 [⟨10, 0⟩] = [⟨10, 0⟩] :=
  warp_extreme_identity unitGrid false 1 1 ⟨10, 0⟩ (Or.inr (Or.inl (by norm_num)))
    rfl rfl rfl rfl

/-- C1: `Puppet::update` performs no parameter clamping: the raw
parameter values are handed to the applicators unchanged.  With the
parameter declared over `[min, max] = [0, 1]` and binding keys
`[0, 10]`, updating at parameter value 5 writes opacity 5 — the value
interpolated at the raw input — where clamping to the declared range
would give at most 1.  (`Puppet` stores no `mins`/`maxes` and
`PuppetFrameData` has no `corrected_params` at all.) -/
theorem update_uses_unclamped_parameter :
    (clampPuppet.update [5] clampFd).map
      (fun fd => (fd.artMeshOpacities, fd.artMeshDrawOrders, fd.artMeshData)) =
      some ([5], [5], [[⟨5, 5⟩]]) := by
  have h5 : lowerUpperIndices [(0 : ℝ), 10] 5 = (0, 1) :=
    lowerUpperIndices_two_keys 0 10 5 (by norm_num) (by norm_num)
  simp only [Puppet.update, clampPuppet, clampFd, clampApp, FrameData.empty,
    List.foldl_cons, List.foldl_nil, ParamApplicator.apply,
    ParamApplicator.doInterpolate, ParamApplicator.doInterpolateSingle,
    Option.getD_some, List.getD_cons_zero, List.getD_cons_succ, h5,
    Interp.linearInterp, Interp.lerp, castSliceV, castVecV,
    walkRoots, gluePass, drawOrderTree, drawOrderRec, List.mergeSort_nil, drawOrderGo,
    Option.bind_some, Option.map_some]
  norm_num [Vec2.mk.injEq]

/-- C4: the deformer tree walk never corrects a rotation-deformer
child's angle.  With a parent rotation deformer turned 90 degrees and
a child rotation deformer at `(1, 0)` with angle 0, the walk moves the
child's origin to `(0, 1)` but leaves its angle at exactly 0 — no
signed-angle correction (which would add 90 degrees here) is applied;
`calculate_rotation_deformer_angle` is never called by `update`. -/
theorem tree_walk_leaves_child_angle :
    (rotPuppet.update [] rotFd).map (fun fd => fd.rotationDeformerData.getD 1 default) =
      some ⟨⟨0, 1⟩, 1, 0⟩ := by
  have hc : Real.cos (toRadians (90 : ℝ)) = 0 := by
    rw [toRadians, show (90 : ℝ) * (Real.pi / 180) = Real.pi / 2 by ring,
      Real.cos_pi_div_two]
  have hs : Real.sin (toRadians (90 : ℝ)) = 1 := by
    rw [toRadians, show (90 : ℝ) * (Real.pi / 180) = Real.pi / 2 by ring,
      Real.sin_pi_div_two]
  simp only [Puppet.update, rotPuppet, rotRoot, rotChild, rotFd, FrameData.empty,
    List.foldl_nil, walkRoots, walkList, walkTree, processEdge, NodeKind.tag,
    finishEdge, applyRotationDeformer, List.map_cons, List.map_nil,
    List.getD_cons_zero, List.getD_cons_succ, gluePass, drawOrderTree, drawOrderRec,
    List.mergeSort_nil, drawOrderGo, Option.bind_some, Option.map_some]
  norm_num [hc, hs]

/-- A nonzero vector has positive norm. -/
theorem Vec2.norm_pos (v : Vec2) (h : v ≠ Vec2.zero) : 0 < v.norm := by
  obtain ⟨vx, vy⟩ := v
  have hne : vx ≠ 0 ∨ vy ≠ 0 := by
    by_contra hcon
    push_neg at hcon
    exact h (by simp [Vec2.zero, hcon.1, hcon.2])
  have hpos : 0 < vx ^ 2 + vy ^ 2 := by
    rcases hne with hx | hy
    · have := sq_nonneg vy
      have := pow_pos (abs_pos.mpr hx) 2
      rw [sq_abs] at this
      linarith
    · have := sq_nonneg vx
      have := pow_pos (abs_pos.mpr hy) 2
      rw [sq_abs] at this
      linarith
  exact Real.sqrt_pos.mpr hpos

/-- Adding and then subtracting the same vector is the identity. -/
theorem Vec2.add_sub_cancel_left (a w : Vec2) : a + w - a = w := by
  obtain ⟨wx, wy⟩ := w
  simp only [Vec2.add_def, Vec2.sub_def, Vec2.mk.injEq]
  constructor <;> ring

/-- One pendulum step places the bob at distance `|radius|` from the
updated previous bob, as long as the candidate direction is
nonzero. -/
theorem pendStep_dist (g : Vec2) (rc dt : ℝ) (prev pt : PendulumPoint)
    (v : PhysicsVertex) (h : pendCandidate g rc dt prev pt v ≠ Vec2.zero) :
    Vec2.norm ((pendStep g rc dt prev pt v).curPosition - prev.curPosition) =
      |v.radius| := by
  have hn := Vec2.norm_pos _ h
  have hne : Vec2.norm (pendCandidate g rc dt prev pt v) ≠ 0 := ne_of_gt hn
  have hstep : (pendStep g rc dt prev pt v).curPosition =
      prev.curPosition + (pendCandidate g rc dt prev pt v).normalize.mulR v.radius := by
    simp [pendStep]
  rw [hstep, Vec2.add_sub_cancel_left]
  set c := pendCandidate g rc dt prev pt v with hc
  have hn2 : Vec2.norm c ^ 2 = c.x ^ 2 + c.y ^ 2 :=
    Real.sq_sqrt (by positivity)
  have key : (c.x / Vec2.norm c * v.radius) ^ 2 + (c.y / Vec2.norm c * v.radius) ^ 2 =
      v.radius ^ 2 := by
    field_simp
    rw [hn2]
    ring
  simp only [Vec2.normalize, Vec2.mulR]
  show Real.sqrt ((c.x / Vec2.norm c * v.radius) ^ 2 +
    (c.y / Vec2.norm c * v.radius) ^ 2) = |v.radius|
  rw [key]
  exact Real.sqrt_sq_eq_abs v.radius

/-- Along the bob loop, every bob with a vertex and a nonzero
candidate direction ends at distance `|radius|` from its updated
predecessor. -/
theorem pendLoop_dist (g : Vec2) (rc dt : ℝ) :
    ∀ (ps : List PendulumPoint) (vs : List PhysicsVertex) (prev : PendulumPoint) (i : ℕ),
      i < ps.length → i < vs.length →
      pendCandidate g rc dt ((prev :: pendLoop g rc dt prev ps vs).getD i default)
          (ps.getD i default) (vs.getD i default) ≠ Vec2.zero →
      Vec2.norm
          (((prev :: pendLoop g rc dt prev ps vs).getD (i + 1) default).curPosition -
            ((prev :: pendLoop g rc dt prev ps vs).getD i default).curPosition) =
        |(vs.getD i default).radius| := by
  intro ps
  induction ps with
  | nil =>
    intro vs prev i hi
    simp at hi
  | cons pt ps ih =>
    intro vs prev i hi hv hcand
    cases vs with
    | nil => simp at hv
    | cons v vs =>
      cases i with
      | zero =>
        simp only [pendLoop, List.getD_cons_zero, List.getD_cons_succ] at hcand ⊢
        exact pendStep_dist g rc dt prev pt v hcand
      | succ i =>
        simp only [pendLoop, List.getD_cons_succ] at hcand ⊢
        exact ih vs (pendStep g rc dt prev pt v) i (by simpa using hi) (by simpa using hv)
          hcand

/-- Dropping the head shifts positional reads by one. -/
theorem getD_drop_one {α : Type} (l : List α) (i : ℕ) (d : α) :
    (l.drop 1).getD i d = l.getD (i + 1) d := by
  cases l <;> simp [List.getD]

/-- C9 (amended): after `Pendulum::update_points` with
`delta_seconds * 20 ≠ 0`, every bob `i + 1` that has a physics vertex
and whose candidate direction is nonzero sits at distance
`|radius|` from the updated bob `i` — exactly `radius` whenever the
radius is nonnegative. -/
theorem pendulum_link_length (p : Pendulum) (dt : ℝ) (ud : UpdateData) (i : ℕ)
    (hdt : dt * 20 ≠ 0) (hi : i + 1 < p.points.length) (hv : i + 1 < p.vertexes.length)
    (hcand : updateCandidate p dt ud i ≠ Vec2.zero) :
    Vec2.norm (((p.updatePoints dt ud).points.getD (i + 1) default).curPosition -
        ((p.updatePoints dt ud).points.getD i default).curPosition) =
      |(p.vertexes.getD (i + 1) default).radius| := by
  obtain ⟨lgr, pts, vts⟩ := p
  cases pts with
  | nil => simp at hi
  | cons p0 rest =>
    have hupd : Pendulum.updatePoints ⟨lgr, p0 :: rest, vts⟩ dt ud =
        { lastGlobalRotation := ud.rotation
          points := (⟨p0.curPosition, ud.translation, p0.curVelocity⟩ : PendulumPoint) ::
            pendLoop ⟨Real.sin ud.rotation, Real.cos ud.rotation⟩
              ((lgr - ud.rotation) / 5) (dt * 20)
              ⟨p0.curPosition, ud.translation, p0.curVelocity⟩ rest (vts.drop 1)
          vertexes := vts } := by
      simp only [Pendulum.updatePoints, if_neg hdt]
    have h1 : i < rest.length := by
      simp only [List.length_cons] at hi
      omega
    have hv2 : i + 1 < vts.length := hv
    have h2 : i < (vts.drop 1).length := by
      simp only [List.length_drop]
      omega
    simp only [updateCandidate, hupd, List.getD_cons_succ] at hcand
    rw [← getD_drop_one vts i default] at hcand
    simp only [hupd]
    rw [← getD_drop_one vts i default]
    exact pendLoop_dist _ _ _ rest (vts.drop 1)
      ⟨p0.curPosition, ud.translation, p0.curVelocity⟩ i h1 h2 hcand

/-- Witness for C9: the two-bob pendulum `pendW` (radius 3), stepped
by `dt = 1/20` with zero drive, puts bob 1 at distance `|3| = 3` from
the anchor. -/
theorem pendulum_link_length_witness :
    Vec2.norm (((pendW.updatePoints (1 / 20) pendUd).points.getD 1 default).curPosition -
        ((pendW.updatePoints (1 / 20) pendUd).points.getD 0 default).curPosition) =
      |(pendW.vertexes.getD 1 default).radius| :=
  pendulum_link_length pendW (1 / 20) pendUd 0 (by norm_num) (by simp [pendW])
    (by simp [pendW])
    (by
      simp only [updateCandidate, Pendulum.updatePoints, pendW, pendUd,
        if_neg (show ¬((1 : ℝ) / 20 * 20 = 0) by norm_num), pendCandidate,
        Vec2.rotateBy, Vec2.mulR, Vec2.add_def, Vec2.sub_def, Vec2.zero,
        List.getD_cons_zero, List.getD_cons_succ, Real.sin_zero, Real.cos_zero,
        ne_eq, Vec2.mk.injEq, not_and]
      intro h3
      norm_num at h3)

/-- Counterexample for C9 as stated: with a negative link radius `-1`,
the bob ends at distance `1` from its predecessor, not at the claimed
distance `radius = -1`. -/
theorem pendulum_link_length_counterexample :
    Vec2.norm (((pendX.updatePoints (1 / 20) pendUd).points.getD 1 default).curPosition -
        ((pendX.updatePoints (1 / 20) pendUd).points.getD 0 default).curPosition) = 1 ∧
      (pendX.vertexes.getD 1 default).radius = -1 ∧ ((1 : ℝ) ≠ -1) := by
  refine ⟨?_, by simp [pendX, List.getD], by norm_num⟩
  have hred : (pendX.updatePoints (1 / 20) pendUd).points =
      (⟨⟨0, 0⟩, ⟨0, 0⟩, ⟨0, 0⟩⟩ : PendulumPoint) ::
        [pendStep ⟨Real.sin (0 : ℝ), Real.cos (0 : ℝ)⟩ (((0 : ℝ) - 0) / 5)
          ((1 : ℝ) / 20 * 20) ⟨⟨0, 0⟩, ⟨0, 0⟩, ⟨0, 0⟩⟩ ⟨⟨3, 4⟩, ⟨3, 4⟩, ⟨0, 0⟩⟩
          ⟨⟨0, 0⟩, 0, 0, 0, -1⟩] := by
    simp only [Pendulum.updatePoints, pendX, pendUd,
      if_neg (show ¬((1 : ℝ) / 20 * 20 = 0) by norm_num), List.drop_succ_cons,
      List.drop_zero, pendLoop]
  rw [hred]
  simp only [List.getD_cons_zero, List.getD_cons_succ]
  rw [pendStep_dist _ _ _ _ _ _
    (by
      simp only [pendCandidate, Vec2.rotateBy, Vec2.mulR, Vec2.add_def, Vec2.sub_def,
        Vec2.zero, Real.sin_zero, Real.cos_zero, ne_eq, Vec2.mk.injEq, not_and]
      intro h3
      norm_num at h3)]
  norm_num

/-- Every draw-order tree has at least one node. -/
theorem DOTree.size_pos (t : DOTree) : 1 ≤ t.size := by
  cases t
  simp [DOTree.size]

/-- The `sizeList` is the sum of the member sizes. -/
theorem DOTree.sizeList_eq_sum (l : List DOTree) :
    DOTree.sizeList l = (l.map DOTree.size).sum := by
  induction l with
  | nil => simp [DOTree.sizeList]
  | cons a as ih => simp [DOTree.sizeList, ih]

/-- Sorting the children does not change their total size. -/
theorem DOTree.sizeList_mergeSort (le : DOTree → DOTree → Bool) (l : List DOTree) :
    DOTree.sizeList (List.mergeSort l le) = DOTree.sizeList l := by
  rw [DOTree.sizeList_eq_sum, DOTree.sizeList_eq_sum]
  exact ((List.mergeSort_perm l le).map DOTree.size).sum_eq

/-- A member of a list is at most as large as the whole list. -/
theorem DOTree.size_le_of_mem {c : DOTree} {l : List DOTree} (h : c ∈ l) :
    c.size ≤ DOTree.sizeList l := by
  induction l with
  | nil => cases h
  | cons a as ih =>
    rcases List.mem_cons.mp h with rfl | hmem
    · simp [DOTree.sizeList]
    · have := ih hmem
      have := DOTree.size_pos a
      simp only [DOTree.sizeList]
      omega

/-- The draw-order sort key only reads the draw-order buffer. -/
theorem keyOf_congr {fd fd' : FrameData}
    (h : fd.artMeshDrawOrders = fd'.artMeshDrawOrders) (t : DOTree) :
    keyOf fd t = keyOf fd' t := by
  cases t with
  | node id k ch => cases k <;> simp [keyOf, h]

/-- The draw-order comparator only reads the draw-order buffer. -/
theorem childLe_congr {fd fd' : FrameData}
    (h : fd.artMeshDrawOrders = fd'.artMeshDrawOrders) :
    childLe fd = childLe fd' := by
  funext a b
  simp [childLe, keyOf_congr h]

/-- The emission sequence only depends on the tree and the draw-order
buffer: changing any other frame field (in particular the render-order
buffer) leaves it unchanged. -/
theorem emitRec_congr : ∀ (n : ℕ) (t : DOTree), t.size ≤ n →
    ∀ (fd fd' : FrameData), fd.artMeshDrawOrders = fd'.artMeshDrawOrders →
    emitRec fd t = emitRec fd' t := by
  intro n
  induction n using Nat.strong_induction_on with
  | _ n ihn =>
    intro t ht fd fd' h
    cases t with
    | node id k children =>
      have hsz : 1 + DOTree.sizeList children ≤ n := by
        simpa [DOTree.size] using ht
      rw [emitRec, emitRec, ← childLe_congr h]
      have inner : ∀ l : List DOTree, (∀ c ∈ l, DOTree.size c < n) →
          emitGo fd l = emitGo fd' l := by
        intro l
        induction l with
        | nil => intro _; simp [emitGo]
        | cons c cs ihc =>
          intro hmem
          have htail := fun c hc => hmem c (List.mem_cons_of_mem _ hc)
          cases c with
          | node cid ck cch =>
            cases ck with
            | artMesh i =>
              simp only [emitGo]
              rw [ihc htail]
            | part pi =>
              simp only [emitGo]
              rw [ihc htail,
                ihn (DOTree.size (DOTree.node cid (DOKind.part pi) cch))
                  (hmem _ (List.mem_cons_self _ _)) _ le_rfl fd fd' h]
      apply inner
      intro c hc
      have hmem : c ∈ children := (List.mergeSort_perm children (childLe fd)).mem_iff.mp hc
      have := DOTree.size_le_of_mem hmem
      omega

/-- List form of `emitRec_congr`. -/
theorem emitGo_congr (fd fd' : FrameData)
    (h : fd.artMeshDrawOrders = fd'.artMeshDrawOrders) :
    ∀ l : List DOTree, emitGo fd l = emitGo fd' l := by
  intro l
  induction l with
  | nil => simp [emitGo]
  | cons c cs ihc =>
    cases c with
    | node cid ck cch =>
      cases ck with
      | artMesh i =>
        simp only [emitGo]
        rw [ihc]
      | part pi =>
        simp only [emitGo]
        rw [ihc, emitRec_congr (DOTree.size (DOTree.node cid (DOKind.part pi) cch)) _
          le_rfl fd fd' h]

/-- Taking one past an overwritten cell splits off the new value. -/
theorem take_set_succ (arr : List ℕ) (i : ℕ) (v : ℕ) (h : i < arr.length) :
    (arr.set i v).take (i + 1) = arr.take i ++ [v] := by
  rw [List.set_take, List.take_succ, List.getElem?_eq_getElem h]
  rw [List.set_append_right _ _ (by simp only [List.length_take]; omega)]
  simp [List.length_take, Nat.min_eq_left (le_of_lt h)]

/-- Positional overwriting that reaches exactly the end of the array
replaces its tail. -/
theorem writeSeq_take_spec :
    ∀ (l : List ℕ) (arr : List ℕ) (i : ℕ), arr.length = i + l.length →
      writeSeq arr i l = arr.take i ++ l := by
  intro l
  induction l with
  | nil =>
    intro arr i h
    simp only [List.length_nil, Nat.add_zero] at h
    simp [writeSeq, List.take_of_length_le h.le]
  | cons v vs ih =>
    intro arr i h
    simp only [List.length_cons] at h
    have hlt : i < arr.length := by omega
    rw [writeSeq, ih (arr.set i v) (i + 1) (by simp; omega),
      take_set_succ arr i v hlt, List.append_assoc, List.singleton_append]

/-- Overwriting the whole array positionally from index 0 yields the
written sequence. -/
theorem writeSeq_full (l arr : List ℕ) (h : l.length = arr.length) :
    writeSeq arr 0 l = l := by
  rw [writeSeq_take_spec l arr 0 (by omega)]
  simp

/-- Consecutive positional writes concatenate. -/
theorem writeSeq_append :
    ∀ (l1 l2 : List ℕ) (arr : List ℕ) (i : ℕ),
      writeSeq arr i (l1 ++ l2) = writeSeq (writeSeq arr i l1) (i + l1.length) l2 := by
  intro l1
  induction l1 with
  | nil => intro l2 arr i; simp [writeSeq]
  | cons v vs ih =>
    intro l2 arr i
    rw [List.cons_append, writeSeq, writeSeq, ih,
      show i + 1 + vs.length = i + (vs.length + 1) by omega, List.length_cons]

/-- Specification of `draw_order_tree_rec`: the recursion writes its
emission sequence positionally into `art_mesh_render_orders` starting
at the cursor, bumps the cursor by the emission length, and changes no
other frame field. -/
theorem drawOrderRec_spec : ∀ (n : ℕ) (t : DOTree), t.size ≤ n →
    ∀ (fd : FrameData) (cur : ℕ),
      drawOrderRec fd cur t =
        ({ fd with artMeshRenderOrders :=
            writeSeq fd.artMeshRenderOrders cur (emitRec fd t) },
          cur + (emitRec fd t).length) := by
  intro n
  induction n using Nat.strong_induction_on with
  | _ n ihn =>
    intro t ht fd cur
    cases t with
    | node id k children =>
      have hsz : 1 + DOTree.sizeList children ≤ n := by
        simpa [DOTree.size] using ht
      rw [drawOrderRec, emitRec]
      have hmemb : ∀ c ∈ List.mergeSort children (childLe fd), DOTree.size c < n := by
        intro c hc
        have hmem : c ∈ children := (List.mergeSort_perm children (childLe fd)).mem_iff.mp hc
        have := DOTree.size_le_of_mem hmem
        omega
      have inner : ∀ l : List DOTree, (∀ c ∈ l, DOTree.size c < n) →
          ∀ (fd0 : FrameData) (cur0 : ℕ), fd0.artMeshDrawOrders = fd.artMeshDrawOrders →
          drawOrderGo fd0 cur0 l =
            ({ fd0 with artMeshRenderOrders :=
                writeSeq fd0.artMeshRenderOrders cur0 (emitGo fd l) },
              cur0 + (emitGo fd l).length) := by
        intro l
        induction l with
        | nil =>
          intro _ fd0 cur0 _
          simp [drawOrderGo, emitGo, writeSeq]
        | cons c cs ihc =>
          intro hmem fd0 cur0 hdo
          have htail := fun c hc => hmem c (List.mem_cons_of_mem _ hc)
          cases c with
          | node cid ck cch =>
            cases ck with
            | artMesh i =>
              rw [drawOrderGo, emitGo]
              rw [ihc htail
                { fd0 with artMeshRenderOrders := fd0.artMeshRenderOrders.set cur0 i }
                (cur0 + 1) hdo]
              simp only [Prod.mk.injEq]
              refine ⟨rfl, ?_⟩
              simp only [List.length_cons]
              omega
            | part pi =>
              rw [drawOrderGo, emitGo]
              rw [ihn (DOTree.size (DOTree.node cid (DOKind.part pi) cch))
                (hmem _ (List.mem_cons_self _ _)) _ le_rfl fd0 cur0]
              rw [emitRec_congr (DOTree.size (DOTree.node cid (DOKind.part pi) cch)) _
                le_rfl fd0 fd hdo]
              rw [ihc htail
                { fd0 with artMeshRenderOrders := writeSeq fd0.artMeshRenderOrders cur0 (emitRec fd (DOTree.node cid (DOKind.part pi) cch)) }
                (cur0 + (emitRec fd (DOTree.node cid (DOKind.part pi) cch)).length) hdo]
              rw [writeSeq_append]
              simp only [Prod.mk.injEq, List.length_append]
              exact ⟨trivial, by omega⟩
      exact inner (List.mergeSort children (childLe fd)) hmemb fd cur rfl

/-- The `amGo` contributes one piece per child. -/
theorem amGo_cons (c : DOTree) (cs : List DOTree) :
    amGo (c :: cs) = amPiece c ++ amGo cs := by
  cases c with
  | node id k ch => cases k <;> simp [amGo, amPiece]

/-- Reordering the children only permutes the collected art-mesh
indices. -/
theorem amGo_perm {l₁ l₂ : List DOTree} (h : List.Perm l₁ l₂) :
    List.Perm (amGo l₁) (amGo l₂) := by
  induction h with
  | nil => simp [amGo]
  | cons x _ ih =>
    rw [amGo_cons, amGo_cons]
    exact ih.append_left (amPiece x)
  | swap x y l =>
    rw [amGo_cons, amGo_cons, amGo_cons, amGo_cons, ← List.append_assoc,
      ← List.append_assoc]
    exact (List.perm_append_comm).append_right (amGo l)
  | trans _ _ ih1 ih2 => exact ih1.trans ih2

/-- The emission sequence of a draw-order subtree is a permutation of
its art-mesh indices in document order. -/
theorem emitRec_perm : ∀ (n : ℕ) (t : DOTree), t.size ≤ n → ∀ fd : FrameData,
    List.Perm (emitRec fd t) (amRec t) := by
  intro n
  induction n using Nat.strong_induction_on with
  | _ n ihn =>
    intro t ht fd
    cases t with
    | node id k children =>
      have hsz : 1 + DOTree.sizeList children ≤ n := by
        simpa [DOTree.size] using ht
      rw [emitRec, amRec]
      have hmemb : ∀ c ∈ List.mergeSort children (childLe fd), DOTree.size c < n := by
        intro c hc
        have hmem : c ∈ children := (List.mergeSort_perm children (childLe fd)).mem_iff.mp hc
        have := DOTree.size_le_of_mem hmem
        omega
      have inner : ∀ l : List DOTree, (∀ c ∈ l, DOTree.size c < n) →
          List.Perm (emitGo fd l) (amGo l) := by
        intro l
        induction l with
        | nil => simp [emitGo, amGo]
        | cons c cs ihc =>
          intro hmem
          have htail := fun c hc => hmem c (List.mem_cons_of_mem _ hc)
          cases c with
          | node cid ck cch =>
            cases ck with
            | artMesh i =>
              rw [emitGo, amGo]
              exact (ihc htail).cons i
            | part pi =>
              rw [emitGo, amGo]
              exact List.Perm.append
                (ihn (DOTree.size (DOTree.node cid (DOKind.part pi) cch))
                  (hmem _ (List.mem_cons_self _ _)) _ le_rfl fd)
                (ihc htail)
      exact (inner (List.mergeSort children (childLe fd)) hmemb).trans
        (amGo_perm (List.mergeSort_perm children (childLe fd)))

/-- An applicator never writes the render-order buffer. -/
theorem apply_renderOrders (a : ParamApplicator) (params : List ℝ) (fd : FrameData) :
    (a.apply params fd).artMeshRenderOrders = fd.artMeshRenderOrders := by
  cases hv : a.values with
  | artMesh ch op dr => cases hb : a.blend <;> simp [ParamApplicator.apply, hv, hb]
  | warpDeformer ch op => simp [ParamApplicator.apply, hv]
  | rotationDeformer ch op => simp [ParamApplicator.apply, hv]
  | glue ints => simp [ParamApplicator.apply, hv]

/-- The applicator pass never writes the render-order buffer. -/
theorem foldlApply_renderOrders (as : List ParamApplicator) (params : List ℝ) :
    ∀ fd : FrameData,
      (as.foldl (fun fd a => a.apply params fd) fd).artMeshRenderOrders =
        fd.artMeshRenderOrders := by
  induction as with
  | nil => intro fd; simp
  | cons a as ih =>
    intro fd
    rw [List.foldl_cons, ih, apply_renderOrders]

/-- One edge of the deformer walk never writes the render-order
buffer. -/
theorem processEdge_renderOrders (fd : FrameData) (parent child : DeformerNode)
    (fd1 : FrameData) (h : processEdge fd parent child = some fd1) :
    fd1.artMeshRenderOrders = fd.artMeshRenderOrders := by
  have hfin : ∀ (fd0 : FrameData) (n : List Vec2) (op : ℝ) (col : BlendColor),
      (finishEdge fd0 child n op col).artMeshRenderOrders = fd0.artMeshRenderOrders := by
    intro fd0 n op col
    cases hc : child.data <;> simp [finishEdge, hc]
  unfold processEdge at h
  split at h
  · simp at h
  · split at h <;> split at h <;> (try dsimp only at h) <;>
      first
        | exact Option.noConfusion h
        | (rw [Option.some.injEq] at h
           subst h
           rw [hfin])

mutual

/-- The walk below one node never writes the render-order buffer. -/
theorem walkTree_renderOrders (fd : FrameData) (parent : DeformerNode) (t : DTree)
    (fd2 : FrameData) (h : walkTree fd parent t = some fd2) :
    fd2.artMeshRenderOrders = fd.artMeshRenderOrders := by
  cases t with
  | node value children =>
    rw [walkTree] at h
    cases hpe : processEdge fd parent value with
    | none => rw [hpe] at h; simp at h
    | some fdA =>
      rw [hpe] at h
      simp only [Option.some_bind] at h
      exact (walkList_renderOrders fdA value children fd2 h).trans
        (processEdge_renderOrders fd parent value fdA hpe)

/-- The walk over sibling subtrees never writes the render-order
buffer. -/
theorem walkList_renderOrders (fd : FrameData) (parent : DeformerNode) (l : List DTree)
    (fd2 : FrameData) (h : walkList fd parent l = some fd2) :
    fd2.artMeshRenderOrders = fd.artMeshRenderOrders := by
  cases l with
  | nil =>
    rw [walkList] at h
    injection h with h2
    subst h2
    rfl
  | cons t ts =>
    rw [walkList] at h
    cases hwt : walkTree fd parent t with
    | none => rw [hwt] at h; simp at h
    | some fdA =>
      rw [hwt] at h
      simp only [Option.some_bind] at h
      exact (walkList_renderOrders fdA parent ts fd2 h).trans
        (walkTree_renderOrders fd parent t fdA hwt)

end

/-- The whole deformer walk never writes the render-order buffer. -/
theorem walkRoots_renderOrders : ∀ (roots : List DTree) (fd fd2 : FrameData),
    walkRoots fd roots = some fd2 →
    fd2.artMeshRenderOrders = fd.artMeshRenderOrders := by
  intro roots
  induction roots with
  | nil =>
    intro fd fd2 h
    rw [walkRoots] at h
    injection h with h2
    subst h2
    rfl
  | cons t ts ih =>
    intro fd fd2 h
    cases t with
    | node value children =>
      rw [walkRoots] at h
      cases hwl : walkList fd value children with
      | none => rw [hwl] at h; simp at h
      | some fdA =>
        rw [hwl] at h
        simp only [Option.some_bind] at h
        exact (ih fdA fd2 h).trans (walkList_renderOrders fd value children fdA hwl)

/-- The glue pass never writes the render-order buffer. -/
theorem gluePass_renderOrders : ∀ (glues : List GlueNode) (fd fd2 : FrameData),
    gluePass fd glues = some fd2 →
    fd2.artMeshRenderOrders = fd.artMeshRenderOrders := by
  intro glues
  induction glues with
  | nil =>
    intro fd fd2 h
    rw [gluePass] at h
    injection h with h2
    subst h2
    rfl
  | cons g gs ih =>
    intro fd fd2 h
    rw [gluePass] at h
    split at h
    · simp at h
    · dsimp only at h
      exact (ih _ fd2 h).trans rfl

/-- C2: after `Puppet::update`, whenever the draw-order forest holds
each art-mesh index of `0..art_mesh_count` exactly once and the
render-order buffer is sized to the puppet, `art_mesh_render_orders`
is a permutation of `0..art_mesh_count`. -/
theorem render_order_permutation (p : Puppet) (params : List ℝ) (fd fd2 : FrameData)
    (hupd : p.update params fd = some fd2)
    (hforest : List.Perm (amRec p.drawOrderRoot) (List.range p.artMeshCount))
    (hlen : fd.artMeshRenderOrders.length = p.artMeshCount) :
    List.Perm fd2.artMeshRenderOrders (List.range p.artMeshCount) := by
  unfold Puppet.update at hupd
  dsimp only at hupd
  cases hwr : walkRoots (p.applicators.foldl (fun fd a => a.apply params fd) fd)
      p.nodeRoots with
  | none => rw [hwr] at hupd; simp at hupd
  | some fdW =>
    rw [hwr] at hupd
    simp only [Option.some_bind] at hupd
    cases hgp : gluePass fdW p.glueNodes with
    | none => rw [hgp] at hupd; simp at hupd
    | some fdG =>
      rw [hgp] at hupd
      simp only [Option.map_some'] at hupd
      injection hupd with h2
      subst h2
      have hro : fdG.artMeshRenderOrders = fd.artMeshRenderOrders :=
        ((gluePass_renderOrders p.glueNodes fdW fdG hgp).trans
          (walkRoots_renderOrders p.nodeRoots _ fdW hwr)).trans
          (foldlApply_renderOrders p.applicators params fd)
      have hperm := emitRec_perm (DOTree.size p.drawOrderRoot) p.drawOrderRoot le_rfl fdG
      have hlen2 : (emitRec fdG p.drawOrderRoot).length = p.artMeshCount := by
        have := (hperm.trans hforest).length_eq
        simpa using this
      rw [drawOrderTree, drawOrderRec_spec (DOTree.size p.drawOrderRoot) p.drawOrderRoot
        le_rfl fdG 0]
      show List.Perm (writeSeq fdG.artMeshRenderOrders 0 (emitRec fdG p.drawOrderRoot)) _
      rw [writeSeq_full _ _ (by rw [hlen2, hro, hlen])]
      exact hperm.trans hforest

/-- Witness for C2: updating the empty puppet (zero art meshes) with
an empty frame state leaves an empty render-order array, the
permutation of `0..0`. -/
theorem render_order_permutation_witness :
    List.Perm FrameData.empty.artMeshRenderOrders (List.range emptyPuppet.artMeshCount) :=
  render_order_permutation emptyPuppet [] FrameData.empty FrameData.empty
    (by simp [Puppet.update, emptyPuppet, walkRoots, gluePass, drawOrderTree,
      drawOrderRec, List.mergeSort_nil, drawOrderGo])
    (by simp [emptyPuppet, amRec, amGo])
    (by simp [FrameData.empty, emptyPuppet])

end Moc3
